import Mathlib

/-
  Verification development for the attendance ledger and weekly journal
  engine of the mex-mat repository.

  The embedding below translates the core business logic of
  `src/curator.py`, `src/dean.py` (completion aggregation, justification)
  and `src/vice_dean.py` (group close/reopen) into pure Lean functions
  over an explicit database state.

  Modelling conventions:
  * Calendar dates are integers counting days from a fixed Monday epoch,
    so `weekday d = d % 7` matches Python's `date.weekday()`
    (Monday = 0 .. Sunday = 6), and `d - weekday d` is the Monday of the
    week of `d`, exactly as `target - timedelta(days=target.weekday())`.
  * SQLAlchemy rows become list entries; `query(...).first()` becomes
    `List.find?`; in-place ORM mutation of the first matching row becomes
    `updateFirst`; `db.add` appends.  Serial primary keys are modelled by
    `next_lesson_id` / `next_att_id` counters in the state.
  * NULL columns become `Option`; the `is_active != False` filter keeps
    rows whose `is_active` is not `some false` (the NULL-as-active
    backward-compatibility rule documented in the source).
  * An endpoint raising `HTTPException` before `db.commit()` leaves the
    store unchanged, so each operation returns `Except ApiError ...`:
    on `.error` the caller keeps the old state.  All raise sites in the
    modelled endpoints occur before any mutation.
-/

namespace Mexmat

/-- One row of the `attendance` table (`models.Attendance`). -/
structure AttendanceFact where
  id : Nat
  student_id : Nat
  lesson_id : Nat
  status : String
  nb_hours : Int
  comment : String
  is_reasoned : Bool
  reason_text : String
  reasoned_by : Option Nat
  marked_by : Nat
deriving Repr, DecidableEq

/-- One row of the `lessons` table (`models.Lesson`). -/
structure Lesson where
  id : Nat
  group_id : Nat
  lesson_date : Int
deriving Repr, DecidableEq

/-- One row of the `students` table (`models.Student`), restricted to the
fields the attendance core reads or writes. -/
structure Student where
  id : Nat
  group_id : Nat
  is_deleted : Bool
  total_absent_hours : Int
deriving Repr, DecidableEq

/-- One row of the `groups` table (`models.Group`), restricted to the
fields the attendance core reads or writes. -/
structure Group where
  id : Nat
  faculty_id : Nat
  curator_id : Option Nat
  is_active : Option Bool
  is_closed : Bool
  is_deleted : Bool
deriving Repr, DecidableEq

/-- The shared ledger state: the tables the core owns. -/
structure DB where
  groups : List Group
  students : List Student
  lessons : List Lesson
  attendance : List AttendanceFact
  next_lesson_id : Nat
  next_att_id : Nat
deriving Repr, DecidableEq

/-- Typed error conditions corresponding to the `HTTPException` raise
sites of the modelled endpoints. -/
inductive ApiError where
  | noActiveGroup
  | groupClosed
  | invalidInput
  | outOfWindow
  | wrongDay
  | invalidHours
  | notFound
  | alreadyClosed
  | notClosed
deriving Repr, DecidableEq

/-- Update the first element satisfying `p` (ORM: mutate the row returned
by `query(...).first()`). -/
def updateFirst (p : α → Bool) (f : α → α) : List α → List α
  | [] => []
  | x :: xs => if p x then f x :: xs else x :: updateFirst p f xs

/-- Python `date.weekday()` on the day-number encoding (Monday = 0). -/
def weekday (d : Int) : Int := d % 7

/-- `curator._week_bounds`: the Monday and Saturday of the week of `today`. -/
def weekBounds (today : Int) : Int × Int :=
  let monday := today - weekday today
  (monday, monday + 5)

/-- Row filter of `curator._get_group`: curator's non-deleted group whose
`is_active` is not `False` (NULL counts as active). -/
def groupMatches (cid : Nat) (g : Group) : Bool :=
  g.curator_id == some cid && !g.is_deleted && g.is_active != some false

/-- `curator._get_group` without the raise: the first matching group. -/
def getGroup (db : DB) (cid : Nat) : Option Group :=
  db.groups.find? (groupMatches cid)

/-- `curator._get_open_group`: 403 when no active group, 403 when the
group is closed. -/
def getOpenGroup (db : DB) (cid : Nat) : Except ApiError Group :=
  match getGroup db cid with
  | none => .error .noActiveGroup
  | some g => if g.is_closed then .error .groupClosed else .ok g

/-- Row filter for `Attendance.student_id == sid, Attendance.lesson_id == lid`. -/
def attKey (sid lid : Nat) (a : AttendanceFact) : Bool :=
  a.student_id == sid && a.lesson_id == lid

/-- Row filter for `Lesson.group_id == gid, Lesson.lesson_date == d`. -/
def lessonKey (gid : Nat) (d : Int) (l : Lesson) : Bool :=
  l.group_id == gid && l.lesson_date == d

/-- `curator._recalc_nb`: sum of `nb_hours` over the student's attendance
rows with `status == "absent"` (coalesced to 0 when there are none). -/
def recalcNb (db : DB) (sid : Nat) : Int :=
  ((db.attendance.filter
      (fun a => a.student_id == sid && a.status == "absent")).map
    (fun a => a.nb_hours)).sum

/-- `curator._get_or_create_lesson`: return the existing lesson for
(group, date) or insert a new one. -/
def getOrCreateLesson (db : DB) (gid : Nat) (d : Int) : DB × Lesson :=
  match db.lessons.find? (lessonKey gid d) with
  | some l => (db, l)
  | none =>
    let l : Lesson := { id := db.next_lesson_id, group_id := gid, lesson_date := d }
    ({ db with lessons := db.lessons ++ [l],
               next_lesson_id := db.next_lesson_id + 1 }, l)

/-- `curator._upsert_attendance`: update the existing (student, lesson)
row — overwriting `nb_hours`, recomputed `status`, `comment`, `marked_by`
— or insert a new row.  Never deletes. -/
def upsertAttendance (db : DB) (lid sid : Nat) (nb : Int) (comment : String)
    (uid : Nat) : DB :=
  if db.attendance.any (attKey sid lid) then
    { db with attendance := (updateFirst (attKey sid lid)
        (fun a => { a with nb_hours := nb,
                           status := if 0 < nb then "absent" else "present",
                           comment := comment,
                           marked_by := uid }) db.attendance) }
  else
    { db with
        attendance := db.attendance ++ [{
          id := db.next_att_id,
          student_id := sid,
          lesson_id := lid,
          status := if 0 < nb then "absent" else "present",
          nb_hours := nb,
          comment := comment,
          is_reasoned := false,
          reason_text := "",
          reasoned_by := none,
          marked_by := uid }],
        next_att_id := db.next_att_id + 1 }

/-- Set of ids of non-deleted students of a group (the `valid_sids`
query of `mark_day` / `save_week`). -/
def validSids (db : DB) (gid : Nat) : List Nat :=
  (db.students.filter (fun s => s.group_id == gid && !s.is_deleted)).map
    (fun s => s.id)

/-- One record of a `mark-day` / `save-week` payload. -/
structure MarkRecord where
  student_id : Nat
  nb_hours : Int
  comment : String
deriving Repr, DecidableEq

/-- Loop body of `mark_day`: skip foreign or deleted students, skip
out-of-range hours, otherwise upsert and append the student id to the
`updated` list. -/
def processRecord (lid uid : Nat) (valid : List Nat) :
    DB × List Nat → MarkRecord → DB × List Nat
  | (db, updated), r =>
    if valid.contains r.student_id then
      if r.nb_hours < 0 ∨ 8 < r.nb_hours then (db, updated)
      else (upsertAttendance db lid r.student_id r.nb_hours r.comment uid,
            updated ++ [r.student_id])
    else (db, updated)

/-- Recalculation step of `mark_day` / `save_week`: look the student up
by id and overwrite the cached total with `_recalc_nb`. -/
def setTotal (db : DB) (sid : Nat) : DB :=
  { db with students := (updateFirst (fun s => s.id == sid)
      (fun s => { s with total_absent_hours := recalcNb db sid }) db.students) }

/-- The `for sid in updated: s.total_absent_hours = _recalc_nb(db, sid)`
loop. -/
def recalcFold (db : DB) (sids : List Nat) : DB :=
  sids.foldl setTotal db

/-- Write phase of `mark_day` after the gate and window checks: resolve
the lesson, filter and upsert the records, recalculate touched totals. -/
def markDayBody (db : DB) (g : Group) (cid : Nat) (mark_date : Int)
    (records : List MarkRecord) : DB × Nat :=
  let res := getOrCreateLesson db g.id mark_date
  let valid := validSids res.1 g.id
  let folded := records.foldl (processRecord res.2.id cid valid) (res.1, [])
  (recalcFold folded.1 folded.2, folded.2.length)

/-- `curator.mark_day` (`POST /api/journal/mark-day`), with the payload
already parsed into a date and typed records.  Returns the new state and
`updated_count`. -/
def markDay (db : DB) (cid : Nat) (today mark_date : Int)
    (records : List MarkRecord) : Except ApiError (DB × Nat) :=
  match getOpenGroup db cid with
  | .error e => .error e
  | .ok g =>
    if ¬((weekBounds today).1 ≤ mark_date ∧ mark_date ≤ (weekBounds today).2)
    then .error .outOfWindow
    else .ok (markDayBody db g cid mark_date records)

/-- Write phase of `mark_student` after all checks: resolve the lesson,
upsert the one record, recalculate the student's total. -/
def markStudentBody (db : DB) (g : Group) (cid sid : Nat) (mark_date : Int)
    (nb : Int) (comment : String) : DB × Int :=
  let res := getOrCreateLesson db g.id mark_date
  let db2 := upsertAttendance res.1 res.2.id sid nb comment cid
  (setTotal db2 sid, recalcNb db2 sid)

/-- `curator.mark_student` (`POST /api/journal/mark`).  `sid = 0` models
a missing/falsy `student_id` payload field.  Returns the new state and
the student's recalculated total. -/
def markStudent (db : DB) (cid : Nat) (today : Int) (sid : Nat)
    (mark_date : Int) (nb : Int) (comment : String) :
    Except ApiError (DB × Int) :=
  match getOpenGroup db cid with
  | .error e => .error e
  | .ok g =>
    if sid == 0 then .error .invalidInput
    else if ¬((weekBounds today).1 ≤ mark_date ∧ mark_date ≤ (weekBounds today).2)
    then .error .outOfWindow
    else if nb < 0 ∨ 8 < nb then .error .invalidHours
    else
      match db.students.find?
          (fun s => s.id == sid && s.group_id == g.id && !s.is_deleted) with
      | none => .error .notFound
      | some _ => .ok (markStudentBody db g cid sid mark_date nb comment)

/-- One day of a `save-week` payload. -/
structure DayRecords where
  day : Int
  records : List MarkRecord
deriving Repr, DecidableEq

/-- Inner loop body of `save_week` (same filters as `mark_day`, also
counting `total_updated`). -/
def processWeekRecord (lid uid : Nat) (valid : List Nat) :
    DB × List Nat × Nat → MarkRecord → DB × List Nat × Nat
  | (db, sids, count), r =>
    if valid.contains r.student_id then
      if r.nb_hours < 0 ∨ 8 < r.nb_hours then (db, sids, count)
      else (upsertAttendance db lid r.student_id r.nb_hours r.comment uid,
            sids ++ [r.student_id], count + 1)
    else (db, sids, count)

/-- Per-day body of `save_week`: skip days outside the Monday–Saturday
span, resolve the lesson, process the day's records. -/
def processDay (gid uid : Nat) (monday saturday : Int) (valid : List Nat) :
    DB × List Nat × Nat → DayRecords → DB × List Nat × Nat
  | (db, sids, count), dr =>
    if ¬(monday ≤ dr.day ∧ dr.day ≤ saturday) then (db, sids, count)
    else
      let res := getOrCreateLesson db gid dr.day
      dr.records.foldl (processWeekRecord res.2.id uid valid) (res.1, sids, count)

/-- Write phase of `save_week` after the gate and window checks. -/
def saveWeekBody (db : DB) (g : Group) (cid : Nat) (monday : Int)
    (days : List DayRecords) : DB × Nat :=
  let saturday := monday + 5
  let valid := validSids db g.id
  let folded := days.foldl (processDay g.id cid monday saturday valid)
    (db, [], 0)
  (recalcFold folded.1 folded.2.1, folded.2.2)

/-- `curator.save_week` (`POST /api/journal/save-week`).  The Python
`updated_sids` set is modelled as the list of appended ids; recalculation
writes an absolute value, so duplicates are harmless.  Returns the new
state and `total_updated`. -/
def saveWeek (db : DB) (cid : Nat) (today week_start : Int)
    (days : List DayRecords) : Except ApiError (DB × Nat) :=
  match getOpenGroup db cid with
  | .error e => .error e
  | .ok g =>
    if ¬(weekday today = 5) then .error .wrongDay
    else if ¬(week_start - weekday week_start = (weekBounds today).1)
    then .error .outOfWindow
    else .ok (saveWeekBody db g cid (week_start - weekday week_start) days)

/-- Largest student id in the table, 0 when empty
(`query(Student).order_by(Student.id.desc()).first()`). -/
def maxStudentId (db : DB) : Nat :=
  (db.students.map (fun s => s.id)).foldl max 0

/-- Write phase of `create_student` after the gate and name checks:
insert the student with `total_absent_hours = initial_nb_hours` and, when
`initial_nb_hours > 0`, insert a transfer attendance fact on today's
lesson unless one already exists. -/
def createStudentBody (db : DB) (g : Group) (cid : Nat) (today : Int)
    (initial_nb_hours : Int) : DB × Nat :=
  let new_id := maxStudentId db + 1
  let s : Student := { id := new_id, group_id := g.id,
                       is_deleted := false,
                       total_absent_hours := initial_nb_hours }
  let db1 := { db with students := db.students ++ [s] }
  if 0 < initial_nb_hours then
    let res := getOrCreateLesson db1 g.id today
    if res.1.attendance.any (attKey new_id res.2.id) then (res.1, new_id)
    else ({ res.1 with
      attendance := res.1.attendance ++ [{
        id := res.1.next_att_id,
        student_id := new_id,
        lesson_id := res.2.id,
        status := "absent",
        nb_hours := initial_nb_hours,
        comment := "NB from previous group",
        is_reasoned := false,
        reason_text := "",
        reasoned_by := none,
        marked_by := cid }],
      next_att_id := res.1.next_att_id + 1 }, new_id)
  else (db1, new_id)

/-- Python `not (payload.get("full_name") or "").strip()`: the submitted
name is empty or all whitespace. -/
def isBlank (s : String) : Bool :=
  s.data.all Char.isWhitespace

/-- `curator.create_student` (`POST /api/students`), restricted to the
attendance-relevant effects.  Returns the new state and the new student
id. -/
def createStudent (db : DB) (cid : Nat) (today : Int) (full_name : String)
    (initial_nb_hours : Int) : Except ApiError (DB × Nat) :=
  match getOpenGroup db cid with
  | .error e => .error e
  | .ok g =>
    if isBlank full_name then .error .invalidInput
    else .ok (createStudentBody db g cid today initial_nb_hours)

/-- `curator.update_student` (`PUT /api/students/{sid}`): gate checks and
student lookup; the updatable fields (name, birth data, phone) are
outside the attendance-relevant state, so a successful update leaves the
modelled state unchanged. -/
def updateStudent (db : DB) (cid sid : Nat) : Except ApiError DB :=
  match getOpenGroup db cid with
  | .error e => .error e
  | .ok g =>
    match db.students.find?
        (fun s => s.id == sid && s.group_id == g.id && !s.is_deleted) with
    | none => .error .notFound
    | some _ => .ok db

/-- `curator.delete_student` (`DELETE /api/students/{sid}`): soft delete. -/
def deleteStudent (db : DB) (cid sid : Nat) : Except ApiError DB :=
  match getOpenGroup db cid with
  | .error e => .error e
  | .ok g =>
    match db.students.find?
        (fun s => s.id == sid && s.group_id == g.id && !s.is_deleted) with
    | none => .error .notFound
    | some _ =>
      .ok { db with students := (updateFirst
        (fun s => s.id == sid && s.group_id == g.id && !s.is_deleted)
        (fun s => { s with is_deleted := true }) db.students) }

/-- Row filter of `vice_dean.close_group` / `reopen_group`. -/
def vdGroupKey (fid gid : Nat) (g : Group) : Bool :=
  g.id == gid && g.faculty_id == fid && !g.is_deleted

/-- `vice_dean.close_group` (`POST /api/groups/{gid}/close`): sets
`is_closed = True` and forces `is_active = False`. -/
def closeGroup (db : DB) (fid gid : Nat) : Except ApiError DB :=
  match db.groups.find? (vdGroupKey fid gid) with
  | none => .error .notFound
  | some g =>
    if g.is_closed then .error .alreadyClosed
    else .ok { db with groups := (updateFirst (vdGroupKey fid gid)
      (fun g => { g with is_closed := true, is_active := some false })
      db.groups) }

/-- `vice_dean.reopen_group` (`POST /api/groups/{gid}/reopen`): clears
`is_closed` and restores `is_active = True`. -/
def reopenGroup (db : DB) (fid gid : Nat) : Except ApiError DB :=
  match db.groups.find? (vdGroupKey fid gid) with
  | none => .error .notFound
  | some g =>
    if ¬g.is_closed then .error .notClosed
    else .ok { db with groups := (updateFirst (vdGroupKey fid gid)
      (fun g => { g with is_closed := false, is_active := some true })
      db.groups) }

/-- Join filter of `dean.justify_attendance`: the fact's lesson's group
belongs to the dean's faculty. -/
def attInFaculty (db : DB) (fid : Nat) (a : AttendanceFact) : Bool :=
  match db.lessons.find? (fun l => l.id == a.lesson_id) with
  | none => false
  | some l =>
    match db.groups.find? (fun g => g.id == l.group_id) with
    | none => false
    | some g => g.faculty_id == fid

/-- `dean.justify_attendance` (`POST /api/attendance/{att_id}/justify`):
overwrites `is_reasoned`, `reason_text`, `reasoned_by` of the fact. -/
def justifyAttendance (db : DB) (uid fid att_id : Nat) (flag : Bool)
    (text : String) : Except ApiError DB :=
  if db.attendance.any (fun a => a.id == att_id && attInFaculty db fid a) then
    .ok { db with attendance := (updateFirst
      (fun a => a.id == att_id && attInFaculty db fid a)
      (fun a => { a with is_reasoned := flag, reason_text := text,
                         reasoned_by := some uid }) db.attendance) }
  else .error .notFound

/-- `Lesson.id` lookup for a (group, date) pair (`dean` daily batch). -/
def lessonFor (db : DB) (gid : Nat) (d : Int) : Option Lesson :=
  db.lessons.find? (lessonKey gid d)

/-- Count of attendance facts of a lesson (`dean` attendance count query). -/
def markedCount (db : DB) (lid : Nat) : Nat :=
  (db.attendance.filter (fun a => a.lesson_id == lid)).length

/-- Count of non-deleted students of a group (`dean` student count query). -/
def totalStudents (db : DB) (gid : Nat) : Nat :=
  (db.students.filter (fun s => s.group_id == gid && !s.is_deleted)).length

/-- Per-group result of `dean._batch_attendance_for_date` for one group:
(status, marked, total). -/
def dailyStatus (db : DB) (gid : Nat) (d : Int) : String × Nat × Nat :=
  let total := totalStudents db gid
  match lessonFor db gid d with
  | none => ("NOT_STARTED", 0, total)
  | some l =>
    let marked := markedCount db l.id
    if marked = 0 then ("NOT_STARTED", marked, total)
    else if total ≤ marked then ("COMPLETED", marked, total)
    else ("IN_PROGRESS", marked, total)

/-- Per-day status of `dean.weekly_control` for one group and day:
(status, marked, total). -/
def weeklyDayStatus (db : DB) (gid : Nat) (d : Int) : String × Nat × Nat :=
  let total := totalStudents db gid
  match lessonFor db gid d with
  | none => ("NOT_STARTED", 0, total)
  | some l =>
    let marked := markedCount db l.id
    if marked = 0 then ("NOT_STARTED", marked, total)
    else if total ≤ marked then ("COMPLETED", marked, total)
    else ("IN_PROGRESS", marked, total)

/-- Attendance facts of one student. -/
def factsOf (db : DB) (sid : Nat) : List AttendanceFact :=
  db.attendance.filter (fun a => a.student_id == sid)

/-- The total demanded by the spec: sum of `nb_hours` over the student's
attendance facts with `nb_hours > 0`. -/
def specTotal (db : DB) (sid : Nat) : Int :=
  (((factsOf db sid).filter (fun a => decide (0 < a.nb_hours))).map
    (fun a => a.nb_hours)).sum

/-- Status column is `absent` exactly on the rows with positive hours. -/
def statusConsistent (db : DB) : Prop :=
  ∀ a ∈ db.attendance, a.status = "absent" ↔ 0 < a.nb_hours

/-- Student primary keys are distinct. -/
def studentIdsNodup (db : DB) : Prop :=
  (db.students.map Student.id).Nodup

/-- Foreign-key constraint: every attendance row references an existing
student row. -/
def factsRefValid (db : DB) : Prop :=
  ∀ a ∈ db.attendance, a.student_id ∈ db.students.map Student.id

/-- The central cache invariant of the spec. -/
def totalsOk (db : DB) : Prop :=
  ∀ s ∈ db.students, s.total_absent_hours = specTotal db s.id

/-- Conjunction of the ledger invariants maintained by the core. -/
def Invariant (db : DB) : Prop :=
  statusConsistent db ∧ studentIdsNodup db ∧ factsRefValid db ∧ totalsOk db

/-- Identity keys of the attendance rows, in table order. -/
def attKeys (db : DB) : List (Nat × Nat) :=
  db.attendance.map (fun a => (a.student_id, a.lesson_id))

/-- Number of attendance rows for one (student, lesson) pair. -/
def countPair (db : DB) (sid lid : Nat) : Nat :=
  (db.attendance.filter (attKey sid lid)).length

/-- Number of lessons for one (group, date) pair. -/
def lessonCount (db : DB) (gid : Nat) (d : Int) : Nat :=
  (db.lessons.filter (lessonKey gid d)).length

/-- The attendance table only ever grows: the old key list is a prefix of
the new one. -/
def keysExtend (db db' : DB) : Prop :=
  ∃ t, attKeys db' = attKeys db ++ t

/-- A `mark_day` / `save_week` record that survives both silent filters. -/
def accepted (valid : List Nat) (r : MarkRecord) : Bool :=
  valid.contains r.student_id && !(decide (r.nb_hours < 0 ∨ 8 < r.nb_hours))

/-- The status map the code implements: `COMPLETED` whenever
`marked ≥ total` and `marked > 0`, with no requirement on `total`. -/
def codeStatus (marked total : Nat) : String :=
  if marked = 0 then "NOT_STARTED"
  else if total ≤ marked then "COMPLETED"
  else "IN_PROGRESS"

/-- Modelled from the spec: the status map claimed in §4.6, which demands
`total > 0` for `COMPLETED`. -/
def claimStatus (marked total : Nat) : String :=
  if marked = 0 then "NOT_STARTED"
  else if total ≤ marked ∧ 0 < total then "COMPLETED"
  else "IN_PROGRESS"

/-- Concrete open group used by witnesses and counterexamples. -/
def exGroup : Group :=
  { id := 1, faculty_id := 1, curator_id := some 1,
    is_active := some true, is_closed := false, is_deleted := false }

/-- Concrete student of `exGroup`. -/
def exStudent : Student :=
  { id := 1, group_id := 1, is_deleted := false, total_absent_hours := 0 }

/-- Concrete initial state: one open group with one student, no lessons,
no attendance. -/
def exDB : DB :=
  { groups := [exGroup], students := [exStudent], lessons := [],
    attendance := [], next_lesson_id := 1, next_att_id := 1 }

/-- `exDB` after `markDay` on day 0 (a Monday) marking student 1 with
2 absence hours. -/
def exMarked : DB :=
  match markDay exDB 1 0 0 [{ student_id := 1, nb_hours := 2, comment := "late" }] with
  | .ok p => p.1
  | .error _ => exDB

/-- `exMarked` after soft-deleting student 1: the lesson keeps its one
attendance fact while the group has zero non-deleted students. -/
def exEmptied : DB :=
  match deleteStudent exMarked 1 1 with
  | .ok d => d
  | .error _ => exMarked

/-- `exDB` after the vice-dean closes group 1. -/
def exClosed : DB :=
  match closeGroup exDB 1 1 with
  | .ok d => d
  | .error _ => exDB

/-- `exDB` after creating a student with negative initial hours. -/
def exNegCreate : DB :=
  match createStudent exDB 1 0 "A" (-5) with
  | .ok p => p.1
  | .error _ => exDB

/-- `exDB` after creating a student with 100 initial transfer hours. -/
def exBigCreate : DB :=
  match createStudent exDB 1 0 "A" 100 with
  | .ok p => p.1
  | .error _ => exDB

/-- A `mark-day` batch with one valid record, one foreign student and one
out-of-range hour value. -/
def exRecs : List MarkRecord :=
  [{ student_id := 1, nb_hours := 2, comment := "late" },
   { student_id := 7, nb_hours := 3, comment := "" },
   { student_id := 1, nb_hours := 99, comment := "" }]

/-- `exDB` after running the mixed batch `exRecs` through `markDay`. -/
def exRecsMarked : DB :=
  match markDay exDB 1 0 0 exRecs with
  | .ok p => p.1
  | .error _ => exDB

/-- `exMarked` after the dean justifies attendance fact 1. -/
def exJustified : DB :=
  match justifyAttendance exMarked 9 1 1 true "ill" with
  | .ok d => d
  | .error _ => exMarked

/-- Every attendance row of the new state is an untouched old row or was
written with hours in the validated range. -/
def newInRange (db db' : DB) : Prop :=
  ∀ a ∈ db'.attendance, a ∈ db.attendance ∨ (0 ≤ a.nb_hours ∧ a.nb_hours ≤ 8)

/-- The justification sub-state of a fact, plus its identity. -/
def justifyFields (a : AttendanceFact) :
    Nat × Nat × Nat × Bool × String × Option Nat :=
  (a.id, a.student_id, a.lesson_id, a.is_reasoned, a.reason_text, a.reasoned_by)

/-- The curator-written state of a fact, plus its identity. -/
def markFields (a : AttendanceFact) :
    Nat × Nat × Nat × String × Int × String × Nat :=
  (a.id, a.student_id, a.lesson_id, a.status, a.nb_hours, a.comment, a.marked_by)

instance (db : DB) : Decidable (statusConsistent db) := by
  unfold statusConsistent; infer_instance

instance (db : DB) : Decidable (studentIdsNodup db) := by
  unfold studentIdsNodup; infer_instance

instance (db : DB) : Decidable (factsRefValid db) := by
  unfold factsRefValid; infer_instance

instance (db : DB) : Decidable (totalsOk db) := by
  unfold totalsOk; infer_instance

instance (db : DB) : Decidable (Invariant db) := by
  unfold Invariant; infer_instance

instance {ε α : Type} [DecidableEq ε] [DecidableEq α] :
    DecidableEq (Except ε α) := fun a b =>
  match a, b with
  | .ok x, .ok y =>
    if h : x = y then .isTrue (by rw [h]) else .isFalse (by simp [h])
  | .ok _, .error _ => .isFalse (by simp)
  | .error _, .ok _ => .isFalse (by simp)
  | .error x, .error y =>
    if h : x = y then .isTrue (by rw [h]) else .isFalse (by simp [h])

/-- `updateFirst` is the identity when nothing matches. -/
theorem updateFirst_of_any_eq_false (p : α → Bool) (f : α → α) :
    ∀ l : List α, l.any p = false → updateFirst p f l = l := by
  intro l
  induction l with
  | nil => intro _; rfl
  | cons x xs ih =>
    intro h
    simp only [List.any_cons, Bool.or_eq_false_iff] at h
    simp [updateFirst, h.1, ih h.2]

/-- Mapping a function unchanged by the update commutes with `updateFirst`. -/
theorem map_updateFirst (p : α → Bool) (f : α → α) (g : α → β)
    (h : ∀ a, p a = true → g (f a) = g a) :
    ∀ l : List α, (updateFirst p f l).map g = l.map g := by
  intro l
  induction l with
  | nil => rfl
  | cons x xs ih =>
    by_cases hp : p x = true
    · simp [updateFirst, hp, h x hp]
    · simp [updateFirst, hp, ih]

/-- Every element of `updateFirst p f l` is an old element or the image of
a matched old element. -/
theorem mem_updateFirst (p : α → Bool) (f : α → α) :
    ∀ l : List α, ∀ y ∈ updateFirst p f l,
      y ∈ l ∨ ∃ x, x ∈ l ∧ p x = true ∧ y = f x := by
  intro l
  induction l with
  | nil => intro y hy; simp [updateFirst] at hy
  | cons x xs ih =>
    intro y hy
    by_cases hp : p x = true
    · simp only [updateFirst, if_pos hp, List.mem_cons] at hy
      rcases hy with hy | hy
      · exact Or.inr ⟨x, List.mem_cons_self x xs, hp, hy⟩
      · exact Or.inl (List.mem_cons_of_mem _ hy)
    · simp only [updateFirst, if_neg hp, List.mem_cons] at hy
      rcases hy with hy | hy
      · exact Or.inl (hy ▸ List.mem_cons_self x xs)
      · rcases ih y hy with h1 | ⟨z, hz, hpz, hyz⟩
        · exact Or.inl (List.mem_cons_of_mem _ h1)
        · exact Or.inr ⟨z, List.mem_cons_of_mem _ hz, hpz, hyz⟩

/-- A filter that rejects the matched row before and after the update is
unaffected by `updateFirst`. -/
theorem filter_updateFirst_of_matched_false (p : α → Bool) (f : α → α)
    (q : α → Bool) (h1 : ∀ a, p a = true → q a = false)
    (h2 : ∀ a, p a = true → q (f a) = false) :
    ∀ l : List α, (updateFirst p f l).filter q = l.filter q := by
  intro l
  induction l with
  | nil => rfl
  | cons x xs ih =>
    by_cases hp : p x = true
    · simp [updateFirst, hp, List.filter_cons, h1 x hp, h2 x hp]
    · simp [updateFirst, hp, List.filter_cons, ih]

/-- A filter whose value on the matched row is preserved keeps its length
under `updateFirst`. -/
theorem length_filter_updateFirst (p : α → Bool) (f : α → α) (q : α → Bool)
    (h : ∀ a, p a = true → q (f a) = q a) :
    ∀ l : List α, ((updateFirst p f l).filter q).length = (l.filter q).length := by
  intro l
  induction l with
  | nil => rfl
  | cons x xs ih =>
    by_cases hp : p x = true
    · simp only [updateFirst, if_pos hp, List.filter_cons, h x hp]
      cases hq : q x <;> simp [ih]
    · simp only [updateFirst, if_neg hp, List.filter_cons]
      cases hq : q x <;> simp [ih]

/-- `any` over a predicate preserved by the update is unchanged. -/
theorem any_updateFirst (p : α → Bool) (f : α → α) (q : α → Bool)
    (h : ∀ a, p a = true → q (f a) = q a) :
    ∀ l : List α, (updateFirst p f l).any q = l.any q := by
  intro l
  induction l with
  | nil => rfl
  | cons x xs ih =>
    by_cases hp : p x = true
    · simp [updateFirst, hp, h x hp]
    · simp [updateFirst, hp, ih]

/-- Updating twice with an idempotent, match-preserving function equals
updating once. -/
theorem updateFirst_updateFirst (p : α → Bool) (f : α → α)
    (hp : ∀ a, p a = true → p (f a) = true) (hf : ∀ a, f (f a) = f a) :
    ∀ l : List α, updateFirst p f (updateFirst p f l) = updateFirst p f l := by
  intro l
  induction l with
  | nil => rfl
  | cons x xs ih =>
    by_cases hx : p x = true
    · simp [updateFirst, hx, hp x hx, hf x]
    · simp [updateFirst, hx, ih]

/-- When some row matches, `updateFirst` contains the image of a matched
row. -/
theorem exists_updateFirst_of_any (p : α → Bool) (f : α → α) :
    ∀ l : List α, l.any p = true →
      ∃ x, x ∈ l ∧ p x = true ∧ f x ∈ updateFirst p f l := by
  intro l
  induction l with
  | nil => intro h; simp at h
  | cons x xs ih =>
    intro h
    by_cases hp : p x = true
    · exact ⟨x, List.mem_cons_self x xs, hp,
        by simp [updateFirst, hp]⟩
    · simp only [List.any_cons, Bool.or_eq_true] at h
      rcases h with h | h
      · exact absurd h hp
      · rcases ih h with ⟨z, hz, hpz, hmem⟩
        exact ⟨z, List.mem_cons_of_mem _ hz, hpz,
          by simp only [updateFirst, if_neg hp, List.mem_cons]; exact Or.inr hmem⟩

/-- With distinct keys, `updateFirst` on a key equals a pointwise map. -/
theorem updateFirst_eq_map_of_nodup (k : α → Nat) (i : Nat) (f : α → α) :
    ∀ l : List α, (l.map k).Nodup →
      updateFirst (fun a => k a == i) f l =
        l.map (fun a => if k a = i then f a else a) := by
  intro l
  induction l with
  | nil => intro _; rfl
  | cons x xs ih =>
    intro h
    simp only [List.map_cons, List.nodup_cons] at h
    by_cases hx : k x = i
    · have htail : xs.map (fun a => if k a = i then f a else a) = xs := by
        have hpt : ∀ a ∈ xs, (if k a = i then f a else a) = id a := by
          intro a ha
          have : k a ≠ i := by
            intro hk
            exact h.1 (by rw [← hx] at hk; exact hk ▸ List.mem_map_of_mem k ha)
          simp [this]
        rw [List.map_congr_left hpt, List.map_id]
      simp [updateFirst, hx, htail]
    · simp [updateFirst, hx, ih h.2]

/-- Every member of a list is bounded by `foldl max` over it. -/
theorem le_foldl_max (l : List Nat) :
    ∀ init, (∀ a ∈ l, a ≤ l.foldl max init) ∧ init ≤ l.foldl max init := by
  induction l with
  | nil => intro init; exact ⟨fun a ha => absurd ha (List.not_mem_nil a), le_refl _⟩
  | cons x xs ih =>
    intro init
    have h := ih (max init x)
    refine ⟨?_, ?_⟩
    · intro a ha
      rcases List.mem_cons.mp ha with rfl | ha
      · exact le_trans (le_max_right init a) h.2
      · exact h.1 a ha
    · exact le_trans (le_max_left init x) h.2

/-- A matched attendance row carries the searched student id. -/
theorem attKey_student (sid lid : Nat) (a : AttendanceFact)
    (h : attKey sid lid a = true) : a.student_id = sid := by
  simp only [attKey, Bool.and_eq_true, beq_iff_eq] at h
  exact h.1

/-- A matched attendance row carries the searched lesson id. -/
theorem attKey_lesson (sid lid : Nat) (a : AttendanceFact)
    (h : attKey sid lid a = true) : a.lesson_id = lid := by
  simp only [attKey, Bool.and_eq_true, beq_iff_eq] at h
  exact h.2

/-- The derived status is `absent` exactly for positive hours. -/
theorem status_iff (nb : Int) :
    ((if 0 < nb then "absent" else "present") = "absent") ↔ 0 < nb := by
  by_cases h : 0 < nb
  · simp [h]
  · simp only [if_neg h]
    constructor
    · intro hs; exact absurd hs (by decide)
    · intro hnb; exact absurd hnb h

/-- Upsert does not touch the students table. -/
theorem upsert_students (db : DB) (lid sid : Nat) (nb : Int) (c : String)
    (uid : Nat) : (upsertAttendance db lid sid nb c uid).students = db.students := by
  unfold upsertAttendance; split <;> rfl

/-- Upsert does not touch the groups table. -/
theorem upsert_groups (db : DB) (lid sid : Nat) (nb : Int) (c : String)
    (uid : Nat) : (upsertAttendance db lid sid nb c uid).groups = db.groups := by
  unfold upsertAttendance; split <;> rfl

/-- Upsert does not touch the lessons table. -/
theorem upsert_lessons (db : DB) (lid sid : Nat) (nb : Int) (c : String)
    (uid : Nat) : (upsertAttendance db lid sid nb c uid).lessons = db.lessons := by
  unfold upsertAttendance; split <;> rfl

/-- Upsert keeps the status column consistent with the hours column. -/
theorem upsert_statusConsistent (db : DB) (lid sid : Nat) (nb : Int)
    (c : String) (uid : Nat) (h : statusConsistent db) :
    statusConsistent (upsertAttendance db lid sid nb c uid) := by
  unfold statusConsistent at h ⊢
  unfold upsertAttendance
  split
  · intro a ha
    dsimp only at ha
    rcases mem_updateFirst _ _ _ a ha with h1 | ⟨x, _, _, rfl⟩
    · exact h a h1
    · exact status_iff nb
  · intro a ha
    dsimp only at ha
    rcases List.mem_append.mp ha with h1 | h1
    · exact h a h1
    · rw [List.mem_singleton.mp h1]
      exact status_iff nb

/-- Upsert for one student leaves every other student's facts unchanged. -/
theorem upsert_factsOf_ne (db : DB) (lid sid x : Nat) (nb : Int) (c : String)
    (uid : Nat) (hx : x ≠ sid) :
    factsOf (upsertAttendance db lid sid nb c uid) x = factsOf db x := by
  unfold factsOf upsertAttendance
  split
  · dsimp only
    apply filter_updateFirst_of_matched_false
    · intro a ha
      have h1 := attKey_student sid lid a ha
      simp [h1, Ne.symm hx]
    · intro a ha
      have h1 := attKey_student sid lid a ha
      show (a.student_id == x) = false
      simp [h1, Ne.symm hx]
  · dsimp only
    simp [List.filter_append, Ne.symm hx]

/-- Upsert appends at most the key it writes. -/
theorem upsert_attKeys (db : DB) (lid sid : Nat) (nb : Int) (c : String)
    (uid : Nat) :
    attKeys (upsertAttendance db lid sid nb c uid) = attKeys db ∨
      attKeys (upsertAttendance db lid sid nb c uid) = attKeys db ++ [(sid, lid)] := by
  unfold attKeys upsertAttendance
  split
  · left
    dsimp only
    apply map_updateFirst
    intro a _
    rfl
  · right
    dsimp only
    rw [List.map_append]
    rfl

/-- Upsert only grows the attendance table. -/
theorem upsert_keysExtend (db : DB) (lid sid : Nat) (nb : Int) (c : String)
    (uid : Nat) : keysExtend db (upsertAttendance db lid sid nb c uid) := by
  rcases upsert_attKeys db lid sid nb c uid with h | h
  · exact ⟨[], by rw [h, List.append_nil]⟩
  · exact ⟨[(sid, lid)], h⟩

/-- After an upsert its own key is present. -/
theorem upsert_mem_attKeys_self (db : DB) (lid sid : Nat) (nb : Int)
    (c : String) (uid : Nat) :
    (sid, lid) ∈ attKeys (upsertAttendance db lid sid nb c uid) := by
  unfold attKeys upsertAttendance
  split
  · rename_i hany
    dsimp only
    rcases exists_updateFirst_of_any (attKey sid lid) _ db.attendance hany with
      ⟨x, _, hpx, hmem⟩
    have h1 := attKey_student sid lid x hpx
    have h2 := attKey_lesson sid lid x hpx
    have : (sid, lid) = ((fun a => (a.student_id, a.lesson_id))
        ({ x with nb_hours := nb,
                  status := if 0 < nb then "absent" else "present",
                  comment := c, marked_by := uid })) := by
      simp [h1, h2]
    rw [this]
    exact List.mem_map_of_mem _ hmem
  · dsimp only
    rw [List.map_append]
    simp

/-- `keysExtend` is reflexive. -/
theorem keysExtend_refl (db : DB) : keysExtend db db :=
  ⟨[], (List.append_nil _).symm⟩

/-- `keysExtend` is transitive. -/
theorem keysExtend_trans {db1 db2 db3 : DB} (h1 : keysExtend db1 db2)
    (h2 : keysExtend db2 db3) : keysExtend db1 db3 := by
  rcases h1 with ⟨t1, ht1⟩
  rcases h2 with ⟨t2, ht2⟩
  exact ⟨t1 ++ t2, by rw [ht2, ht1, List.append_assoc]⟩

/-- Equal attendance tables give `keysExtend`. -/
theorem keysExtend_of_att_eq {db1 db2 : DB}
    (h : db2.attendance = db1.attendance) : keysExtend db1 db2 :=
  ⟨[], by unfold attKeys; rw [h, List.append_nil]⟩

/-- Key membership is monotone along `keysExtend`. -/
theorem mem_attKeys_mono {db1 db2 : DB} (h : keysExtend db1 db2)
    {k : Nat × Nat} (hk : k ∈ attKeys db1) : k ∈ attKeys db2 := by
  rcases h with ⟨t, ht⟩
  rw [ht]
  exact List.mem_append_left t hk

/-- Per-lesson fact counts grow along `keysExtend`. -/
theorem markedCount_mono {db1 db2 : DB} (h : keysExtend db1 db2)
    (lid : Nat) : markedCount db1 lid ≤ markedCount db2 lid := by
  rcases h with ⟨t, ht⟩
  have conv : ∀ db : DB, markedCount db lid =
      ((attKeys db).filter (fun k => k.2 == lid)).length := by
    intro db
    unfold markedCount attKeys
    rw [List.filter_map, List.length_map]
    rfl
  rw [conv db1, conv db2, ht, List.filter_append, List.length_append]
  exact Nat.le_add_right _ _

/-- Pair counts expressed through the key list. -/
theorem countPair_eq_keys (db : DB) (sid lid : Nat) :
    countPair db sid lid =
      ((attKeys db).filter (fun k => k.1 == sid && k.2 == lid)).length := by
  unfold countPair attKeys
  rw [List.filter_map, List.length_map]
  rfl

/-- Lesson resolution does not touch students. -/
theorem gocl_students (db : DB) (gid : Nat) (d : Int) :
    (getOrCreateLesson db gid d).1.students = db.students := by
  unfold getOrCreateLesson; split <;> rfl

/-- Lesson resolution does not touch attendance. -/
theorem gocl_attendance (db : DB) (gid : Nat) (d : Int) :
    (getOrCreateLesson db gid d).1.attendance = db.attendance := by
  unfold getOrCreateLesson; split <;> rfl

/-- Lesson resolution does not touch groups. -/
theorem gocl_groups (db : DB) (gid : Nat) (d : Int) :
    (getOrCreateLesson db gid d).1.groups = db.groups := by
  unfold getOrCreateLesson; split <;> rfl

/-- Facts of one student only depend on the attendance table. -/
theorem factsOf_congr {db1 db2 : DB} (x : Nat)
    (h : db1.attendance = db2.attendance) : factsOf db1 x = factsOf db2 x := by
  unfold factsOf; rw [h]

/-- The spec total only depends on the student's facts. -/
theorem specTotal_congr {db1 db2 : DB} (x : Nat)
    (h : factsOf db1 x = factsOf db2 x) : specTotal db1 x = specTotal db2 x := by
  unfold specTotal; rw [h]

/-- Status consistency only depends on the attendance table. -/
theorem statusConsistent_congr {db1 db2 : DB}
    (h : db1.attendance = db2.attendance) :
    statusConsistent db1 ↔ statusConsistent db2 := by
  unfold statusConsistent; rw [h]

/-- Under status consistency the code's recalculation computes exactly
the spec's sum of positive hours. -/
theorem recalcNb_eq_specTotal (db : DB) (sid : Nat) (h : statusConsistent db) :
    recalcNb db sid = specTotal db sid := by
  unfold recalcNb specTotal factsOf
  rw [List.filter_filter]
  have heq : List.filter (fun a => a.student_id == sid && a.status == "absent")
      db.attendance =
      List.filter (fun a => decide (0 < a.nb_hours) && a.student_id == sid)
      db.attendance := by
    apply List.filter_congr
    intro a ha
    have hiff := h a ha
    by_cases h0 : 0 < a.nb_hours
    · have hs : a.status = "absent" := hiff.mpr h0
      simp [hs, h0, Bool.and_comm]
    · have hs : ¬(a.status = "absent") := fun hh => h0 (hiff.mp hh)
      simp [hs, h0]
  rw [heq]

/-- Recalculation writes only the students table. -/
theorem setTotal_attendance (db : DB) (sid : Nat) :
    (setTotal db sid).attendance = db.attendance := rfl

/-- Recalculation keeps student ids. -/
theorem setTotal_ids (db : DB) (sid : Nat) :
    (setTotal db sid).students.map Student.id = db.students.map Student.id := by
  unfold setTotal
  dsimp only
  apply map_updateFirst
  intro a _
  rfl

/-- The recalculation loop writes only the students table. -/
theorem recalcFold_attendance (sids : List Nat) :
    ∀ db : DB, (recalcFold db sids).attendance = db.attendance := by
  induction sids with
  | nil => intro db; rfl
  | cons sid rest ih =>
    intro db
    unfold recalcFold at ih ⊢
    rw [List.foldl_cons, ih (setTotal db sid), setTotal_attendance]

/-- The recalculation loop keeps groups. -/
theorem recalcFold_groups (sids : List Nat) :
    ∀ db : DB, (recalcFold db sids).groups = db.groups := by
  induction sids with
  | nil => intro db; rfl
  | cons sid rest ih =>
    intro db
    unfold recalcFold at ih ⊢
    rw [List.foldl_cons, ih (setTotal db sid)]
    rfl

/-- Explicit form of the recalculation loop: each touched student's cache
is overwritten with the recalculated value, everyone else is untouched. -/
theorem recalcFold_students (sids : List Nat) :
    ∀ db : DB, studentIdsNodup db →
      (recalcFold db sids).students =
        db.students.map (fun s => if s.id ∈ sids then
          { s with total_absent_hours := recalcNb db s.id } else s) := by
  induction sids with
  | nil =>
    intro db _
    unfold recalcFold
    rw [List.foldl_nil]
    have hpt : ∀ s ∈ db.students,
        (if s.id ∈ ([] : List Nat) then
          { s with total_absent_hours := recalcNb db s.id } else s) = id s := by
      intro s _; simp
    rw [List.map_congr_left hpt, List.map_id]
  | cons sid rest ih =>
    intro db hnd
    have hnd2 : studentIdsNodup (setTotal db sid) := by
      unfold studentIdsNodup
      rw [setTotal_ids]
      exact hnd
    have hrec : ∀ x, recalcNb (setTotal db sid) x = recalcNb db x := by
      intro x
      unfold recalcNb
      rw [setTotal_attendance]
    unfold recalcFold at ih ⊢
    rw [List.foldl_cons, ih (setTotal db sid) hnd2]
    simp only [hrec]
    unfold setTotal
    dsimp only
    rw [updateFirst_eq_map_of_nodup Student.id sid _ db.students hnd, List.map_map]
    apply List.map_congr_left
    intro s _
    by_cases h1 : s.id = sid
    · by_cases h2 : s.id ∈ rest <;>
        simp [Function.comp, h1, h2, List.mem_cons]
    · by_cases h2 : s.id ∈ rest <;>
        simp [Function.comp, h1, h2, List.mem_cons]

/-- Key membership expressed as existence of an attendance row. -/
theorem mem_attKeys_iff (db : DB) (s l : Nat) :
    (s, l) ∈ attKeys db ↔
      ∃ a ∈ db.attendance, a.student_id = s ∧ a.lesson_id = l := by
  unfold attKeys
  rw [List.mem_map]
  constructor
  · rintro ⟨a, ha, he⟩
    rw [Prod.mk.injEq] at he
    exact ⟨a, ha, he.1, he.2⟩
  · rintro ⟨a, ha, h1, h2⟩
    exact ⟨a, ha, by rw [h1, h2]⟩

/-- Upsert keeps the uniqueness bound of every (student, lesson) pair. -/
theorem upsert_countPair_le (db : DB) (lid sid : Nat) (nb : Int) (c : String)
    (uid s' l' : Nat) (h : countPair db s' l' ≤ 1) :
    countPair (upsertAttendance db lid sid nb c uid) s' l' ≤ 1 := by
  unfold countPair at h ⊢
  unfold upsertAttendance
  split
  · dsimp only
    exact le_of_eq_of_le
      (length_filter_updateFirst _ _ _ (by intro a ha; rfl) _) h
  · rename_i hany
    dsimp only
    rw [List.filter_append, List.length_append]
    by_cases hk : s' = sid ∧ l' = lid
    · obtain ⟨rfl, rfl⟩ := hk
      have h0 : List.filter (attKey s' l') db.attendance = [] := by
        rw [List.filter_eq_nil_iff]
        intro a ha hpa
        rw [Bool.not_eq_true, List.any_eq_false] at hany
        exact hany a ha hpa
      rw [h0]
      simpa using List.length_filter_le _ _
    · have h1 : List.filter (attKey s' l') [({
          id := db.next_att_id, student_id := sid, lesson_id := lid,
          status := if 0 < nb then "absent" else "present", nb_hours := nb,
          comment := c, is_reasoned := false, reason_text := "",
          reasoned_by := none, marked_by := uid } : AttendanceFact)] = [] := by
        rw [List.filter_eq_nil_iff]
        intro a ha hpa
        rw [List.mem_singleton] at ha
        subst ha
        have hs := attKey_student s' l' _ hpa
        have hl := attKey_lesson s' l' _ hpa
        exact hk ⟨hs.symm, hl.symm⟩
      rw [h1]
      simpa using h

/-- Upsert writes one row for its own pair when uniqueness held before. -/
theorem upsert_countPair_self (db : DB) (lid sid : Nat) (nb : Int)
    (c : String) (uid : Nat) (h : countPair db sid lid ≤ 1) :
    countPair (upsertAttendance db lid sid nb c uid) sid lid = 1 := by
  unfold countPair at h ⊢
  unfold upsertAttendance
  split
  · rename_i hany
    dsimp only
    refine (length_filter_updateFirst _ _ _ (by intro a ha; rfl) _).trans ?_
    rw [List.any_eq_true] at hany
    rcases hany with ⟨a, ha, hpa⟩
    have hne : List.filter (attKey sid lid) db.attendance ≠ [] := by
      intro h0
      rw [List.filter_eq_nil_iff] at h0
      exact h0 a ha hpa
    have hpos : 0 < (List.filter (attKey sid lid) db.attendance).length :=
      List.length_pos.mpr hne
    omega
  · rename_i hany
    dsimp only
    rw [List.filter_append, List.length_append]
    have h0 : List.filter (attKey sid lid) db.attendance = [] := by
      rw [List.filter_eq_nil_iff]
      intro a ha hpa
      rw [Bool.not_eq_true, List.any_eq_false] at hany
      exact hany a ha hpa
    rw [h0]
    simp [attKey]

/-- Upsert keeps referential integrity when the written student exists. -/
theorem upsert_factsRefValid (db : DB) (lid sid : Nat) (nb : Int)
    (c : String) (uid : Nat) (h : factsRefValid db)
    (hs : sid ∈ db.students.map Student.id) :
    factsRefValid (upsertAttendance db lid sid nb c uid) := by
  unfold factsRefValid at h ⊢
  intro a ha
  rw [upsert_students]
  revert ha
  unfold upsertAttendance
  split
  · dsimp only
    intro ha
    rcases mem_updateFirst _ _ _ a ha with h1 | ⟨x, hx, _, rfl⟩
    · exact h a h1
    · exact h x hx
  · dsimp only
    intro ha
    rcases List.mem_append.mp ha with h1 | h1
    · exact h a h1
    · rw [List.mem_singleton.mp h1]
      exact hs

/-- The batch loop of `mark_day` never touches the students table. -/
theorem foldMark_students (lid uid : Nat) (valid : List Nat)
    (records : List MarkRecord) :
    ∀ st : DB × List Nat,
      (records.foldl (processRecord lid uid valid) st).1.students =
        st.1.students := by
  induction records with
  | nil => intro st; rfl
  | cons r rest ih =>
    intro st
    rw [List.foldl_cons, ih]
    obtain ⟨db, upd⟩ := st
    by_cases hc : r.student_id ∈ valid
    · by_cases hr : r.nb_hours < 0 ∨ 8 < r.nb_hours
      · simp [processRecord, hc, hr]
      · simp [processRecord, hc, hr, upsert_students]
    · simp [processRecord, hc]

/-- The batch loop of `mark_day` never touches the groups table. -/
theorem foldMark_groups (lid uid : Nat) (valid : List Nat)
    (records : List MarkRecord) :
    ∀ st : DB × List Nat,
      (records.foldl (processRecord lid uid valid) st).1.groups =
        st.1.groups := by
  induction records with
  | nil => intro st; rfl
  | cons r rest ih =>
    intro st
    rw [List.foldl_cons, ih]
    obtain ⟨db, upd⟩ := st
    by_cases hc : r.student_id ∈ valid
    · by_cases hr : r.nb_hours < 0 ∨ 8 < r.nb_hours
      · simp [processRecord, hc, hr]
      · simp [processRecord, hc, hr, upsert_groups]
    · simp [processRecord, hc]

/-- The batch loop keeps the status column consistent. -/
theorem foldMark_statusConsistent (lid uid : Nat) (valid : List Nat)
    (records : List MarkRecord) :
    ∀ st : DB × List Nat, statusConsistent st.1 →
      statusConsistent (records.foldl (processRecord lid uid valid) st).1 := by
  induction records with
  | nil => intro st h; exact h
  | cons r rest ih =>
    intro st h
    rw [List.foldl_cons]
    apply ih
    obtain ⟨db, upd⟩ := st
    by_cases hc : r.student_id ∈ valid
    · by_cases hr : r.nb_hours < 0 ∨ 8 < r.nb_hours
      · simpa [processRecord, hc, hr] using h
      · have h2 := upsert_statusConsistent db lid r.student_id r.nb_hours r.comment uid h
        simpa [processRecord, hc, hr] using h2
    · simpa [processRecord, hc] using h

/-- The batch loop appends exactly the accepted student ids. -/
theorem foldMark_updated (lid uid : Nat) (valid : List Nat)
    (records : List MarkRecord) :
    ∀ st : DB × List Nat,
      (records.foldl (processRecord lid uid valid) st).2 =
        st.2 ++ (records.filter (accepted valid)).map MarkRecord.student_id := by
  induction records with
  | nil => intro st; simp
  | cons r rest ih =>
    intro st
    rw [List.foldl_cons, ih]
    obtain ⟨db, upd⟩ := st
    by_cases hc : r.student_id ∈ valid
    · by_cases hr : r.nb_hours < 0 ∨ 8 < r.nb_hours
      · have hacc : accepted valid r = false := by simp [accepted, hc, hr]
        simp [processRecord, hc, hr, List.filter_cons, hacc]
      · have hacc : accepted valid r = true := by simp [accepted, hc, hr]
        simp [processRecord, hc, hr, List.filter_cons, hacc]
    · have hacc : accepted valid r = false := by simp [accepted, hc]
      simp [processRecord, hc, List.filter_cons, hacc]

/-- Students not written by the batch keep their facts. -/
theorem foldMark_factsOf (lid uid : Nat) (valid : List Nat)
    (records : List MarkRecord) :
    ∀ st : DB × List Nat, ∀ x : Nat,
      (∀ r ∈ records, accepted valid r = true → x ≠ r.student_id) →
        factsOf (records.foldl (processRecord lid uid valid) st).1 x =
          factsOf st.1 x := by
  induction records with
  | nil => intro st x _; rfl
  | cons r rest ih =>
    intro st x hx
    rw [List.foldl_cons]
    have htail : ∀ r' ∈ rest, accepted valid r' = true → x ≠ r'.student_id :=
      fun r' hr' => hx r' (List.mem_cons_of_mem _ hr')
    rw [ih _ x htail]
    obtain ⟨db, upd⟩ := st
    by_cases hc : r.student_id ∈ valid
    · by_cases hr : r.nb_hours < 0 ∨ 8 < r.nb_hours
      · simp [processRecord, hc, hr]
      · have hacc : accepted valid r = true := by simp [accepted, hc, hr]
        have hxne : x ≠ r.student_id := hx r (List.mem_cons_self _ _) hacc
        have h2 := upsert_factsOf_ne db lid r.student_id x r.nb_hours r.comment uid hxne
        simpa [processRecord, hc, hr] using h2
    · simp [processRecord, hc]

/-- The batch loop keeps referential integrity. -/
theorem foldMark_refValid (lid uid : Nat) (valid : List Nat)
    (records : List MarkRecord) :
    ∀ st : DB × List Nat, factsRefValid st.1 →
      (∀ sid ∈ valid, sid ∈ st.1.students.map Student.id) →
      factsRefValid (records.foldl (processRecord lid uid valid) st).1 := by
  induction records with
  | nil => intro st h _; exact h
  | cons r rest ih =>
    intro st h hv
    rw [List.foldl_cons]
    obtain ⟨db, upd⟩ := st
    by_cases hc : r.student_id ∈ valid
    · by_cases hr : r.nb_hours < 0 ∨ 8 < r.nb_hours
      · apply ih
        · simpa [processRecord, hc, hr] using h
        · simpa [processRecord, hc, hr] using hv
      · apply ih
        · have h2 := upsert_factsRefValid db lid r.student_id r.nb_hours
            r.comment uid h (hv r.student_id hc)
          simpa [processRecord, hc, hr] using h2
        · intro sid hsid
          have h2 := hv sid hsid
          simpa [processRecord, hc, hr, upsert_students] using h2
    · apply ih
      · simpa [processRecord, hc] using h
      · simpa [processRecord, hc] using hv

/-- The batch loop only grows the attendance table. -/
theorem foldMark_keysExtend (lid uid : Nat) (valid : List Nat)
    (records : List MarkRecord) :
    ∀ st : DB × List Nat,
      keysExtend st.1 (records.foldl (processRecord lid uid valid) st).1 := by
  induction records with
  | nil => intro st; exact keysExtend_refl _
  | cons r rest ih =>
    intro st
    rw [List.foldl_cons]
    refine keysExtend_trans ?_ (ih _)
    obtain ⟨db, upd⟩ := st
    by_cases hc : r.student_id ∈ valid
    · by_cases hr : r.nb_hours < 0 ∨ 8 < r.nb_hours
      · simpa [processRecord, hc, hr] using keysExtend_refl db
      · have h2 := upsert_keysExtend db lid r.student_id r.nb_hours r.comment uid
        simpa [processRecord, hc, hr] using h2
    · simpa [processRecord, hc] using keysExtend_refl db

/-- The batch loop keeps the uniqueness bound of every pair. -/
theorem foldMark_countPair (lid uid : Nat) (valid : List Nat)
    (records : List MarkRecord) :
    ∀ st : DB × List Nat, (∀ s l, countPair st.1 s l ≤ 1) →
      ∀ s l, countPair (records.foldl (processRecord lid uid valid) st).1 s l ≤ 1 := by
  induction records with
  | nil => intro st h; exact h
  | cons r rest ih =>
    intro st h
    rw [List.foldl_cons]
    apply ih
    obtain ⟨db, upd⟩ := st
    by_cases hc : r.student_id ∈ valid
    · by_cases hr : r.nb_hours < 0 ∨ 8 < r.nb_hours
      · simpa [processRecord, hc, hr] using h
      · intro s l
        have h2 := upsert_countPair_le db lid r.student_id r.nb_hours
          r.comment uid s l (h s l)
        simpa [processRecord, hc, hr] using h2
    · simpa [processRecord, hc] using h

/-- Every accepted record ends up with a fact on the written lesson. -/
theorem foldMark_mem_attKeys (lid uid : Nat) (valid : List Nat)
    (records : List MarkRecord) :
    ∀ st : DB × List Nat, ∀ r ∈ records, accepted valid r = true →
      (r.student_id, lid) ∈
        attKeys (records.foldl (processRecord lid uid valid) st).1 := by
  induction records with
  | nil => intro st r hr; exact absurd hr (List.not_mem_nil r)
  | cons r0 rest ih =>
    intro st r hr hacc
    rw [List.foldl_cons]
    rcases List.mem_cons.mp hr with rfl | hmem
    · have hc : r.student_id ∈ valid := by
        have := hacc
        simp [accepted] at this
        exact this.1
      have hok : ¬(r.nb_hours < 0 ∨ 8 < r.nb_hours) := by
        have := hacc
        simp [accepted] at this
        omega
      apply mem_attKeys_mono (foldMark_keysExtend lid uid valid rest _)
      obtain ⟨db, upd⟩ := st
      have h2 := upsert_mem_attKeys_self db lid r.student_id r.nb_hours r.comment uid
      simpa [processRecord, hc, hok] using h2
    · exact ih _ r hmem hacc

/-- Valid student ids only depend on the students table. -/
theorem validSids_congr {db1 db2 : DB} (gid : Nat)
    (h : db1.students = db2.students) : validSids db1 gid = validSids db2 gid := by
  unfold validSids; rw [h]

/-- Valid student ids of a group are existing student ids. -/
theorem validSids_subset (db : DB) (gid : Nat) :
    ∀ sid ∈ validSids db gid, sid ∈ db.students.map Student.id := by
  intro sid hsid
  unfold validSids at hsid
  rw [List.mem_map] at hsid
  rcases hsid with ⟨s, hs, rfl⟩
  exact List.mem_map_of_mem _ (List.mem_of_mem_filter hs)

/-- The recalculation loop keeps student ids. -/
theorem recalcFold_ids (sids : List Nat) :
    ∀ db : DB, (recalcFold db sids).students.map Student.id =
      db.students.map Student.id := by
  induction sids with
  | nil => intro db; rfl
  | cons sid rest ih =>
    intro db
    unfold recalcFold at ih ⊢
    rw [List.foldl_cons, ih, setTotal_ids]

/-- Referential integrity transfers along equal attendance and id lists. -/
theorem factsRefValid_congr {db1 db2 : DB}
    (hatt : db2.attendance = db1.attendance)
    (hids : db2.students.map Student.id = db1.students.map Student.id)
    (h : factsRefValid db1) : factsRefValid db2 := by
  unfold factsRefValid at h ⊢
  intro a ha
  rw [hids]
  rw [hatt] at ha
  exact h a ha

/-- Central assembly: running the recalculation loop over the touched
students after a batch of writes restores the full ledger invariant,
provided untouched students kept their facts. -/
theorem recalc_assembly (db0 dbF : DB) (updated : List Nat)
    (hstu : dbF.students = db0.students)
    (hsc : statusConsistent dbF)
    (hnd : studentIdsNodup db0)
    (hrv : factsRefValid dbF)
    (hto : totalsOk db0)
    (hfacts : ∀ x, ¬x ∈ updated → factsOf dbF x = factsOf db0 x) :
    Invariant (recalcFold dbF updated) := by
  have hndF : studentIdsNodup dbF := by
    unfold studentIdsNodup at hnd ⊢
    rw [hstu]
    exact hnd
  refine ⟨?_, ?_, ?_, ?_⟩
  · rw [statusConsistent_congr (recalcFold_attendance updated dbF)]
    exact hsc
  · unfold studentIdsNodup
    rw [recalcFold_ids, hstu]
    exact hnd
  · exact factsRefValid_congr (recalcFold_attendance updated dbF)
      (recalcFold_ids updated dbF) hrv
  · intro s' hs'
    rw [recalcFold_students updated dbF hndF, List.mem_map] at hs'
    obtain ⟨s, hs, rfl⟩ := hs'
    have hattF : (recalcFold dbF updated).attendance = dbF.attendance :=
      recalcFold_attendance updated dbF
    by_cases hmem : s.id ∈ updated
    · simp only [if_pos hmem]
      rw [recalcNb_eq_specTotal dbF s.id hsc]
      exact specTotal_congr _ (factsOf_congr _ hattF.symm)
    · simp only [if_neg hmem]
      have hsdb0 : s ∈ db0.students := by rw [← hstu]; exact hs
      have h1 : s.total_absent_hours = specTotal db0 s.id := hto s hsdb0
      rw [h1]
      have h2 : factsOf (recalcFold dbF updated) s.id = factsOf db0 s.id := by
        rw [factsOf_congr _ hattF]
        exact hfacts s.id hmem
      exact (specTotal_congr _ h2).symm

/-- `mark_day` propagates a gate failure. -/
theorem markDay_err_gate (db : DB) (cid : Nat) (today d : Int)
    (records : List MarkRecord) (e : ApiError)
    (hg : getOpenGroup db cid = .error e) :
    markDay db cid today d records = .error e := by
  unfold markDay; simp only [hg]

/-- `mark_day` rejects a date outside the current week. -/
theorem markDay_err_window (db : DB) (cid : Nat) (today d : Int)
    (records : List MarkRecord) (g : Group)
    (hg : getOpenGroup db cid = .ok g)
    (hw : ¬((weekBounds today).1 ≤ d ∧ d ≤ (weekBounds today).2)) :
    markDay db cid today d records = .error .outOfWindow := by
  unfold markDay; simp only [hg]; rw [if_pos hw]

/-- `mark_day` reduction on the success path. -/
theorem markDay_ok (db : DB) (cid : Nat) (today d : Int)
    (records : List MarkRecord) (g : Group)
    (hg : getOpenGroup db cid = .ok g)
    (hw : (weekBounds today).1 ≤ d ∧ d ≤ (weekBounds today).2) :
    markDay db cid today d records = .ok (markDayBody db g cid d records) := by
  unfold markDay; simp only [hg]; rw [if_neg (not_not_intro hw)]

/-- `mark_student` propagates a gate failure. -/
theorem markStudent_err_gate (db : DB) (cid : Nat) (today : Int) (sid : Nat)
    (d nb : Int) (c : String) (e : ApiError)
    (hg : getOpenGroup db cid = .error e) :
    markStudent db cid today sid d nb c = .error e := by
  unfold markStudent; simp only [hg]

/-- `mark_student` rejects a date outside the current week. -/
theorem markStudent_err_window (db : DB) (cid : Nat) (today : Int) (sid : Nat)
    (d nb : Int) (c : String) (g : Group)
    (hg : getOpenGroup db cid = .ok g) (hsid : sid ≠ 0)
    (hw : ¬((weekBounds today).1 ≤ d ∧ d ≤ (weekBounds today).2)) :
    markStudent db cid today sid d nb c = .error .outOfWindow := by
  unfold markStudent
  simp only [hg]
  rw [if_neg (by simpa using hsid), if_pos hw]

/-- `mark_student` reduction on the success path. -/
theorem markStudent_ok (db : DB) (cid : Nat) (today : Int) (sid : Nat)
    (d nb : Int) (c : String) (g : Group) (s0 : Student)
    (hg : getOpenGroup db cid = .ok g) (hsid : sid ≠ 0)
    (hw : (weekBounds today).1 ≤ d ∧ d ≤ (weekBounds today).2)
    (hnb : ¬(nb < 0 ∨ 8 < nb))
    (hf : db.students.find?
      (fun s => s.id == sid && s.group_id == g.id && !s.is_deleted) = some s0) :
    markStudent db cid today sid d nb c =
      .ok (markStudentBody db g cid sid d nb c) := by
  unfold markStudent
  simp only [hg]
  rw [if_neg (by simpa using hsid), if_neg (not_not_intro hw), if_neg hnb]
  simp only [hf]

/-- `save_week` propagates a gate failure. -/
theorem saveWeek_err_gate (db : DB) (cid : Nat) (today ws : Int)
    (days : List DayRecords) (e : ApiError)
    (hg : getOpenGroup db cid = .error e) :
    saveWeek db cid today ws days = .error e := by
  unfold saveWeek; simp only [hg]

/-- `save_week` rejects any day that is not Saturday. -/
theorem saveWeek_err_wrongDay (db : DB) (cid : Nat) (today ws : Int)
    (days : List DayRecords) (g : Group)
    (hg : getOpenGroup db cid = .ok g) (hd : ¬(weekday today = 5)) :
    saveWeek db cid today ws days = .error .wrongDay := by
  unfold saveWeek; simp only [hg]; rw [if_pos hd]

/-- `save_week` rejects a week other than the current one. -/
theorem saveWeek_err_window (db : DB) (cid : Nat) (today ws : Int)
    (days : List DayRecords) (g : Group)
    (hg : getOpenGroup db cid = .ok g) (hd : weekday today = 5)
    (hm : ¬(ws - weekday ws = (weekBounds today).1)) :
    saveWeek db cid today ws days = .error .outOfWindow := by
  unfold saveWeek
  simp only [hg]
  rw [if_neg (not_not_intro hd), if_pos hm]

/-- `save_week` reduction on the success path. -/
theorem saveWeek_ok (db : DB) (cid : Nat) (today ws : Int)
    (days : List DayRecords) (g : Group)
    (hg : getOpenGroup db cid = .ok g) (hd : weekday today = 5)
    (hm : ws - weekday ws = (weekBounds today).1) :
    saveWeek db cid today ws days =
      .ok (saveWeekBody db g cid (ws - weekday ws) days) := by
  unfold saveWeek
  simp only [hg]
  rw [if_neg (not_not_intro hd), if_neg (not_not_intro hm)]

/-- `markDay` preserves the ledger invariant. -/
theorem markDay_invariant (db : DB) (cid : Nat) (today d : Int)
    (records : List MarkRecord) (db' : DB) (n : Nat)
    (hinv : Invariant db) (h : markDay db cid today d records = .ok (db', n)) :
    Invariant db' := by
  obtain ⟨hsc, hnd, hrv, hto⟩ := hinv
  cases hg : getOpenGroup db cid with
  | error e =>
    rw [markDay_err_gate db cid today d records e hg] at h
    exact absurd h (by simp)
  | ok g =>
    by_cases hw : (weekBounds today).1 ≤ d ∧ d ≤ (weekBounds today).2
    · rw [markDay_ok db cid today d records g hg hw] at h
      simp only [Except.ok.injEq] at h
      have hdb : db' = (markDayBody db g cid d records).1 := by rw [h]
      subst hdb
      show Invariant (recalcFold
        (records.foldl (processRecord (getOrCreateLesson db g.id d).2.id cid
          (validSids (getOrCreateLesson db g.id d).1 g.id))
          ((getOrCreateLesson db g.id d).1, [])).1
        (records.foldl (processRecord (getOrCreateLesson db g.id d).2.id cid
          (validSids (getOrCreateLesson db g.id d).1 g.id))
          ((getOrCreateLesson db g.id d).1, [])).2)
      have hat1 := gocl_attendance db g.id d
      have hst1 := gocl_students db g.id d
      apply recalc_assembly db
      · rw [foldMark_students, hst1]
      · apply foldMark_statusConsistent
        rw [statusConsistent_congr hat1]
        exact hsc
      · exact hnd
      · apply foldMark_refValid
        · exact factsRefValid_congr hat1 (by rw [hst1]) hrv
        · intro sid hsid
          rw [validSids_congr g.id hst1] at hsid
          rw [hst1]
          exact validSids_subset db g.id sid hsid
      · exact hto
      · intro x hx
        rw [foldMark_updated] at hx
        have hcond : ∀ r ∈ records,
            accepted (validSids (getOrCreateLesson db g.id d).1 g.id) r = true →
            x ≠ r.student_id := by
          intro r hr hacc he
          apply hx
          rw [List.nil_append, he]
          exact List.mem_map_of_mem _ (List.mem_filter.mpr ⟨hr, hacc⟩)
        rw [foldMark_factsOf _ _ _ _ _ x hcond]
        exact factsOf_congr _ hat1
    · rw [markDay_err_window db cid today d records g hg hw] at h
      exact absurd h (by simp)

/-- `markStudent` preserves the ledger invariant. -/
theorem markStudent_invariant (db : DB) (cid : Nat) (today : Int) (sid : Nat)
    (d nb : Int) (c : String) (db' : DB) (t : Int)
    (hinv : Invariant db) (h : markStudent db cid today sid d nb c = .ok (db', t)) :
    Invariant db' := by
  obtain ⟨hsc, hnd, hrv, hto⟩ := hinv
  cases hg : getOpenGroup db cid with
  | error e =>
    rw [markStudent_err_gate db cid today sid d nb c e hg] at h
    exact absurd h (by simp)
  | ok g =>
    by_cases hsid : sid = 0
    · have hred : markStudent db cid today sid d nb c = .error .invalidInput := by
        unfold markStudent
        simp only [hg]
        rw [if_pos (by simpa using hsid)]
      rw [hred] at h
      exact absurd h (by simp)
    · by_cases hw : (weekBounds today).1 ≤ d ∧ d ≤ (weekBounds today).2
      · by_cases hnb : nb < 0 ∨ 8 < nb
        · have hred : markStudent db cid today sid d nb c = .error .invalidHours := by
            unfold markStudent
            simp only [hg]
            rw [if_neg (by simpa using hsid), if_neg (not_not_intro hw), if_pos hnb]
          rw [hred] at h
          exact absurd h (by simp)
        · cases hf : db.students.find?
              (fun s => s.id == sid && s.group_id == g.id && !s.is_deleted) with
          | none =>
            have hred : markStudent db cid today sid d nb c = .error .notFound := by
              unfold markStudent
              simp only [hg]
              rw [if_neg (by simpa using hsid), if_neg (not_not_intro hw), if_neg hnb]
              simp only [hf]
            rw [hred] at h
            exact absurd h (by simp)
          | some s0 =>
            rw [markStudent_ok db cid today sid d nb c g s0 hg hsid hw hnb hf] at h
            simp only [Except.ok.injEq] at h
            have hdb : db' = (markStudentBody db g cid sid d nb c).1 := by rw [h]
            subst hdb
            show Invariant (recalcFold
              (upsertAttendance (getOrCreateLesson db g.id d).1
                (getOrCreateLesson db g.id d).2.id sid nb c cid) [sid])
            have hat1 := gocl_attendance db g.id d
            have hst1 := gocl_students db g.id d
            have hsid_mem : sid ∈ db.students.map Student.id := by
              have hmem := List.mem_of_find?_eq_some hf
              have hpred := List.find?_some hf
              simp only [Bool.and_eq_true, beq_iff_eq] at hpred
              rw [← hpred.1.1]
              exact List.mem_map_of_mem _ hmem
            apply recalc_assembly db
            · rw [upsert_students, hst1]
            · apply upsert_statusConsistent
              rw [statusConsistent_congr hat1]
              exact hsc
            · exact hnd
            · apply upsert_factsRefValid
              · exact factsRefValid_congr hat1 (by rw [hst1]) hrv
              · rw [hst1]
                exact hsid_mem
            · exact hto
            · intro x hx
              rw [List.mem_singleton] at hx
              rw [upsert_factsOf_ne _ _ _ _ _ _ _ hx]
              exact factsOf_congr _ hat1
      · rw [markStudent_err_window db cid today sid d nb c g hg hsid hw] at h
        exact absurd h (by simp)

/-- The `save_week` record step is the `mark_day` record step plus the
accepted-records counter. -/
theorem processWeekRecord_eq (lid uid : Nat) (valid : List Nat)
    (st : DB × List Nat × Nat) (r : MarkRecord) :
    processWeekRecord lid uid valid st r =
      ((processRecord lid uid valid (st.1, st.2.1) r).1,
       (processRecord lid uid valid (st.1, st.2.1) r).2,
       st.2.2 + (if accepted valid r = true then 1 else 0)) := by
  obtain ⟨db, sids, count⟩ := st
  by_cases hc : r.student_id ∈ valid
  · by_cases hr : r.nb_hours < 0 ∨ 8 < r.nb_hours
    · have hacc : accepted valid r = false := by simp [accepted, hc, hr]
      simp [processWeekRecord, processRecord, hc, hr, hacc]
    · have hacc : accepted valid r = true := by simp [accepted, hc, hr]
      simp [processWeekRecord, processRecord, hc, hr, hacc]
  · have hacc : accepted valid r = false := by simp [accepted, hc]
    simp [processWeekRecord, processRecord, hc, hacc]

/-- The inner `save_week` loop is the `mark_day` loop plus the count of
accepted records. -/
theorem foldWeek_eq (lid uid : Nat) (valid : List Nat)
    (records : List MarkRecord) :
    ∀ st : DB × List Nat × Nat,
      records.foldl (processWeekRecord lid uid valid) st =
        ((records.foldl (processRecord lid uid valid) (st.1, st.2.1)).1,
         (records.foldl (processRecord lid uid valid) (st.1, st.2.1)).2,
         st.2.2 + (records.filter (accepted valid)).length) := by
  induction records with
  | nil => intro st; simp
  | cons r rest ih =>
    intro st
    rw [List.foldl_cons, List.foldl_cons, processWeekRecord_eq, ih]
    by_cases hacc : accepted valid r = true
    · simp [List.filter_cons, hacc, Prod.mk.injEq]
      omega
    · simp [List.filter_cons, hacc, Prod.mk.injEq]

/-- The day step of `save_week` never touches the students table. -/
theorem processDay_students (gid uid : Nat) (m s : Int) (valid : List Nat)
    (st : DB × List Nat × Nat) (dr : DayRecords) :
    (processDay gid uid m s valid st dr).1.students = st.1.students := by
  obtain ⟨db, sids, count⟩ := st
  by_cases hin : m ≤ dr.day ∧ dr.day ≤ s
  · simp only [processDay, if_neg (not_not_intro hin)]
    rw [foldWeek_eq]
    dsimp only
    rw [foldMark_students]
    exact gocl_students db gid dr.day
  · simp [processDay, hin]

/-- The day step keeps the status column consistent. -/
theorem processDay_statusConsistent (gid uid : Nat) (m s : Int)
    (valid : List Nat) (st : DB × List Nat × Nat) (dr : DayRecords)
    (h : statusConsistent st.1) :
    statusConsistent (processDay gid uid m s valid st dr).1 := by
  obtain ⟨db, sids, count⟩ := st
  by_cases hin : m ≤ dr.day ∧ dr.day ≤ s
  · simp only [processDay, if_neg (not_not_intro hin)]
    rw [foldWeek_eq]
    dsimp only
    apply foldMark_statusConsistent
    dsimp only
    rw [statusConsistent_congr (gocl_attendance db gid dr.day)]
    exact h
  · simpa [processDay, hin] using h

/-- The day step keeps referential integrity. -/
theorem processDay_refValid (gid uid : Nat) (m s : Int) (valid : List Nat)
    (st : DB × List Nat × Nat) (dr : DayRecords)
    (h : factsRefValid st.1)
    (hv : ∀ sid ∈ valid, sid ∈ st.1.students.map Student.id) :
    factsRefValid (processDay gid uid m s valid st dr).1 := by
  obtain ⟨db, sids, count⟩ := st
  by_cases hin : m ≤ dr.day ∧ dr.day ≤ s
  · simp only [processDay, if_neg (not_not_intro hin)]
    rw [foldWeek_eq]
    dsimp only
    apply foldMark_refValid
    · exact factsRefValid_congr (gocl_attendance db gid dr.day)
        (by rw [gocl_students db gid dr.day]) h
    · intro sid hsid
      rw [gocl_students db gid dr.day]
      exact hv sid hsid
  · simpa [processDay, hin] using h

/-- The day step only grows the attendance table. -/
theorem processDay_keysExtend (gid uid : Nat) (m s : Int) (valid : List Nat)
    (st : DB × List Nat × Nat) (dr : DayRecords) :
    keysExtend st.1 (processDay gid uid m s valid st dr).1 := by
  obtain ⟨db, sids, count⟩ := st
  by_cases hin : m ≤ dr.day ∧ dr.day ≤ s
  · simp only [processDay, if_neg (not_not_intro hin)]
    rw [foldWeek_eq]
    dsimp only
    refine keysExtend_trans ?_ (foldMark_keysExtend _ _ _ _ _)
    exact keysExtend_of_att_eq (gocl_attendance db gid dr.day)
  · simpa [processDay, hin] using keysExtend_refl db

/-- The day step keeps the uniqueness bound of every pair. -/
theorem processDay_countPair (gid uid : Nat) (m s : Int) (valid : List Nat)
    (st : DB × List Nat × Nat) (dr : DayRecords)
    (h : ∀ a b, countPair st.1 a b ≤ 1) :
    ∀ a b, countPair (processDay gid uid m s valid st dr).1 a b ≤ 1 := by
  obtain ⟨db, sids, count⟩ := st
  by_cases hin : m ≤ dr.day ∧ dr.day ≤ s
  · simp only [processDay, if_neg (not_not_intro hin)]
    rw [foldWeek_eq]
    dsimp only
    apply foldMark_countPair
    intro a b
    have : countPair (getOrCreateLesson db gid dr.day).1 a b = countPair db a b := by
      unfold countPair
      rw [gocl_attendance db gid dr.day]
    rw [this]
    exact h a b
  · simpa [processDay, hin] using h

/-- The touched-id list of the day step extends the incoming one. -/
theorem processDay_sids (gid uid : Nat) (m s : Int) (valid : List Nat)
    (st : DB × List Nat × Nat) (dr : DayRecords) :
    ∃ t, (processDay gid uid m s valid st dr).2.1 = st.2.1 ++ t := by
  obtain ⟨db, sids, count⟩ := st
  by_cases hin : m ≤ dr.day ∧ dr.day ≤ s
  · simp only [processDay, if_neg (not_not_intro hin)]
    rw [foldWeek_eq]
    dsimp only
    rw [foldMark_updated]
    exact ⟨_, rfl⟩
  · simp only [processDay, if_pos hin]
    exact ⟨[], (List.append_nil _).symm⟩

/-- Students whose id is not in the day step's touched list keep their
facts. -/
theorem processDay_factsOf (gid uid : Nat) (m s : Int) (valid : List Nat)
    (st : DB × List Nat × Nat) (dr : DayRecords) (x : Nat)
    (hx : ¬x ∈ (processDay gid uid m s valid st dr).2.1) :
    factsOf (processDay gid uid m s valid st dr).1 x = factsOf st.1 x := by
  obtain ⟨db, sids, count⟩ := st
  by_cases hin : m ≤ dr.day ∧ dr.day ≤ s
  · simp only [processDay, if_neg (not_not_intro hin)] at hx ⊢
    rw [foldWeek_eq] at hx ⊢
    dsimp only at hx ⊢
    rw [foldMark_updated] at hx
    have hcond : ∀ r ∈ dr.records, accepted valid r = true →
        x ≠ r.student_id := by
      intro r hr hacc he
      apply hx
      apply List.mem_append_right
      rw [he]
      exact List.mem_map_of_mem _ (List.mem_filter.mpr ⟨hr, hacc⟩)
    rw [foldMark_factsOf _ _ _ _ _ x hcond]
    exact factsOf_congr _ (gocl_attendance db gid dr.day)
  · simp [processDay, hin]

/-- The day loop of `save_week` never touches the students table. -/
theorem foldDays_students (gid uid : Nat) (m s : Int) (valid : List Nat)
    (days : List DayRecords) :
    ∀ st : DB × List Nat × Nat,
      (days.foldl (processDay gid uid m s valid) st).1.students =
        st.1.students := by
  induction days with
  | nil => intro st; rfl
  | cons dr rest ih =>
    intro st
    rw [List.foldl_cons, ih, processDay_students]

/-- The day loop keeps the status column consistent. -/
theorem foldDays_statusConsistent (gid uid : Nat) (m s : Int)
    (valid : List Nat) (days : List DayRecords) :
    ∀ st : DB × List Nat × Nat, statusConsistent st.1 →
      statusConsistent (days.foldl (processDay gid uid m s valid) st).1 := by
  induction days with
  | nil => intro st h; exact h
  | cons dr rest ih =>
    intro st h
    rw [List.foldl_cons]
    exact ih _ (processDay_statusConsistent gid uid m s valid st dr h)

/-- The day loop keeps referential integrity. -/
theorem foldDays_refValid (gid uid : Nat) (m s : Int) (valid : List Nat)
    (days : List DayRecords) :
    ∀ st : DB × List Nat × Nat, factsRefValid st.1 →
      (∀ sid ∈ valid, sid ∈ st.1.students.map Student.id) →
      factsRefValid (days.foldl (processDay gid uid m s valid) st).1 := by
  induction days with
  | nil => intro st h _; exact h
  | cons dr rest ih =>
    intro st h hv
    rw [List.foldl_cons]
    apply ih
    · exact processDay_refValid gid uid m s valid st dr h hv
    · intro sid hsid
      rw [processDay_students]
      exact hv sid hsid

/-- The day loop only grows the attendance table. -/
theorem foldDays_keysExtend (gid uid : Nat) (m s : Int) (valid : List Nat)
    (days : List DayRecords) :
    ∀ st : DB × List Nat × Nat,
      keysExtend st.1 (days.foldl (processDay gid uid m s valid) st).1 := by
  induction days with
  | nil => intro st; exact keysExtend_refl _
  | cons dr rest ih =>
    intro st
    rw [List.foldl_cons]
    exact keysExtend_trans (processDay_keysExtend gid uid m s valid st dr) (ih _)

/-- The day loop keeps the uniqueness bound of every pair. -/
theorem foldDays_countPair (gid uid : Nat) (m s : Int) (valid : List Nat)
    (days : List DayRecords) :
    ∀ st : DB × List Nat × Nat, (∀ a b, countPair st.1 a b ≤ 1) →
      ∀ a b, countPair (days.foldl (processDay gid uid m s valid) st).1 a b ≤ 1 := by
  induction days with
  | nil => intro st h; exact h
  | cons dr rest ih =>
    intro st h
    rw [List.foldl_cons]
    exact ih _ (processDay_countPair gid uid m s valid st dr h)

/-- The day loop's touched-id list extends the incoming one. -/
theorem foldDays_sids (gid uid : Nat) (m s : Int) (valid : List Nat)
    (days : List DayRecords) :
    ∀ st : DB × List Nat × Nat,
      ∃ t, (days.foldl (processDay gid uid m s valid) st).2.1 = st.2.1 ++ t := by
  induction days with
  | nil => intro st; exact ⟨[], (List.append_nil _).symm⟩
  | cons dr rest ih =>
    intro st
    rw [List.foldl_cons]
    rcases ih (processDay gid uid m s valid st dr) with ⟨t1, ht1⟩
    rcases processDay_sids gid uid m s valid st dr with ⟨t2, ht2⟩
    exact ⟨t2 ++ t1, by rw [ht1, ht2, List.append_assoc]⟩

/-- Students whose id the day loop never touched keep their facts. -/
theorem foldDays_factsOf (gid uid : Nat) (m s : Int) (valid : List Nat)
    (days : List DayRecords) :
    ∀ st : DB × List Nat × Nat, ∀ x : Nat,
      ¬x ∈ (days.foldl (processDay gid uid m s valid) st).2.1 →
      factsOf (days.foldl (processDay gid uid m s valid) st).1 x =
        factsOf st.1 x := by
  induction days with
  | nil => intro st x _; rfl
  | cons dr rest ih =>
    intro st x hx
    rw [List.foldl_cons] at hx ⊢
    have hx1 : ¬x ∈ (processDay gid uid m s valid st dr).2.1 := by
      intro hmem
      apply hx
      rcases foldDays_sids gid uid m s valid rest
        (processDay gid uid m s valid st dr) with ⟨t, ht⟩
      rw [ht]
      exact List.mem_append_left t hmem
    rw [ih _ x hx, processDay_factsOf gid uid m s valid st dr x hx1]

/-- `saveWeek` preserves the ledger invariant. -/
theorem saveWeek_invariant (db : DB) (cid : Nat) (today ws : Int)
    (days : List DayRecords) (db' : DB) (n : Nat)
    (hinv : Invariant db) (h : saveWeek db cid today ws days = .ok (db', n)) :
    Invariant db' := by
  obtain ⟨hsc, hnd, hrv, hto⟩ := hinv
  cases hg : getOpenGroup db cid with
  | error e =>
    rw [saveWeek_err_gate db cid today ws days e hg] at h
    exact absurd h (by simp)
  | ok g =>
    by_cases hd : weekday today = 5
    · by_cases hm : ws - weekday ws = (weekBounds today).1
      · rw [saveWeek_ok db cid today ws days g hg hd hm] at h
        simp only [Except.ok.injEq] at h
        have hdb : db' = (saveWeekBody db g cid (ws - weekday ws) days).1 := by
          rw [h]
        subst hdb
        show Invariant (recalcFold
          (days.foldl (processDay g.id cid (ws - weekday ws)
            ((ws - weekday ws) + 5) (validSids db g.id)) (db, [], 0)).1
          (days.foldl (processDay g.id cid (ws - weekday ws)
            ((ws - weekday ws) + 5) (validSids db g.id)) (db, [], 0)).2.1)
        apply recalc_assembly db
        · rw [foldDays_students]
        · apply foldDays_statusConsistent
          exact hsc
        · exact hnd
        · apply foldDays_refValid
          · exact hrv
          · intro sid hsid
            exact validSids_subset db g.id sid hsid
        · exact hto
        · intro x hx
          exact foldDays_factsOf _ _ _ _ _ days (db, [], 0) x hx
      · rw [saveWeek_err_window db cid today ws days g hg hd hm] at h
        exact absurd h (by simp)
    · rw [saveWeek_err_wrongDay db cid today ws days g hg hd] at h
      exact absurd h (by simp)

/-- Every student id is bounded by the current maximum. -/
theorem maxStudentId_ge (db : DB) :
    ∀ s ∈ db.students, s.id ≤ maxStudentId db := by
  intro s hs
  unfold maxStudentId
  exact (le_foldl_max (db.students.map (fun s => s.id)) 0).1 s.id
    (List.mem_map_of_mem _ hs)

/-- The id `create_student` assigns is fresh. -/
theorem maxStudentId_fresh (db : DB) :
    ¬(maxStudentId db + 1) ∈ db.students.map Student.id := by
  intro hmem
  rw [List.mem_map] at hmem
  rcases hmem with ⟨s, hs, he⟩
  have h1 := maxStudentId_ge db s hs
  omega

/-- Appending a new element keeps a duplicate-free list duplicate-free. -/
theorem nodup_append_singleton {α : Type} {l : List α} {a : α}
    (h : l.Nodup) (ha : ¬a ∈ l) : (l ++ [a]).Nodup := by
  simp [List.nodup_append, h, ha]

/-- A student referenced by no attendance row has no facts. -/
theorem factsOf_fresh (db : DB) (x : Nat) (hrv : factsRefValid db)
    (hx : ¬x ∈ db.students.map Student.id) : factsOf db x = [] := by
  unfold factsOf
  rw [List.filter_eq_nil_iff]
  intro a ha hpa
  apply hx
  have h1 : a.student_id = x := by simpa using hpa
  rw [← h1]
  exact hrv a ha

/-- An empty fact list sums to zero. -/
theorem specTotal_nil (db : DB) (x : Nat) (hx : factsOf db x = []) :
    specTotal db x = 0 := by
  unfold specTotal
  rw [hx]
  rfl

/-- A student with no facts matches no attendance key. -/
theorem any_attKey_eq_false (db : DB) (x lid : Nat)
    (h : factsOf db x = []) :
    db.attendance.any (attKey x lid) = false := by
  rw [List.any_eq_false]
  intro a ha hpa
  have h1 := attKey_student x lid a hpa
  unfold factsOf at h
  rw [List.filter_eq_nil_iff] at h
  exact h a ha (by simp [h1])

/-- Fact lists after appending one attendance row. -/
theorem factsOf_append (db db2 : DB) (l : List AttendanceFact) (x : Nat)
    (h : db2.attendance = db.attendance ++ l) :
    factsOf db2 x = factsOf db x ++ l.filter (fun a => a.student_id == x) := by
  unfold factsOf
  rw [h, List.filter_append]

/-- A singleton of a foreign student filters to nothing. -/
theorem filter_singleton_ne (a : AttendanceFact) (x : Nat)
    (hx : a.student_id ≠ x) :
    [a].filter (fun b => b.student_id == x) = [] := by
  simp [hx]

/-- A singleton of the matching student filters to itself. -/
theorem filter_singleton_eq (a : AttendanceFact) (x : Nat)
    (hx : a.student_id = x) :
    [a].filter (fun b => b.student_id == x) = [a] := by
  simp [hx]

/-- `create_student` propagates a gate failure. -/
theorem createStudent_err_gate (db : DB) (cid : Nat) (today : Int)
    (name : String) (init : Int) (e : ApiError)
    (hg : getOpenGroup db cid = .error e) :
    createStudent db cid today name init = .error e := by
  unfold createStudent; simp only [hg]

/-- `create_student` reduction on the success path. -/
theorem createStudent_ok (db : DB) (cid : Nat) (today : Int)
    (name : String) (init : Int) (g : Group)
    (hg : getOpenGroup db cid = .ok g) (hname : ¬(isBlank name = true)) :
    createStudent db cid today name init =
      .ok (createStudentBody db g cid today init) := by
  unfold createStudent
  simp only [hg]
  rw [if_neg hname]

/-- Inserting a transfer fact for a freshly created student keeps the
ledger invariant. -/
theorem insert_fact_invariant (db dbI : DB) (x lid aid uid gid : Nat)
    (init : Int)
    (hatt : dbI.attendance = db.attendance ++ [{
      id := aid, student_id := x, lesson_id := lid, status := "absent",
      nb_hours := init, comment := "NB from previous group",
      is_reasoned := false, reason_text := "", reasoned_by := none,
      marked_by := uid }])
    (hstu : dbI.students = db.students ++ [{
      id := x, group_id := gid, is_deleted := false,
      total_absent_hours := init }])
    (hsc : statusConsistent db) (hnd : studentIdsNodup db)
    (hrv : factsRefValid db) (hto : totalsOk db)
    (hfresh : ¬x ∈ db.students.map Student.id)
    (hi : 0 < init) : Invariant dbI := by
  have hne : ∀ s ∈ db.students, s.id ≠ x := by
    intro s hs he
    exact hfresh (he ▸ List.mem_map_of_mem Student.id hs)
  have hids : dbI.students.map Student.id = db.students.map Student.id ++ [x] := by
    rw [hstu, List.map_append]
    rfl
  refine ⟨?_, ?_, ?_, ?_⟩
  · intro a ha
    rw [hatt] at ha
    rcases List.mem_append.mp ha with h1 | h1
    · exact hsc a h1
    · rw [List.mem_singleton.mp h1]
      simpa using hi
  · unfold studentIdsNodup
    rw [hids]
    exact nodup_append_singleton hnd hfresh
  · intro a ha
    rw [hids]
    rw [hatt] at ha
    rcases List.mem_append.mp ha with h1 | h1
    · exact List.mem_append_left _ (hrv a h1)
    · rw [List.mem_singleton.mp h1]
      simp
  · intro s' hs'
    rw [hstu] at hs'
    rcases List.mem_append.mp hs' with h1 | h1
    · have hxne : s'.id ≠ x := hne s' h1
      have hfo : factsOf dbI s'.id = factsOf db s'.id := by
        rw [factsOf_append db dbI _ s'.id hatt,
          filter_singleton_ne _ _ (Ne.symm hxne), List.append_nil]
      rw [specTotal_congr s'.id hfo]
      exact hto s' h1
    · rw [List.mem_singleton.mp h1]
      show init = specTotal dbI x
      unfold specTotal
      rw [factsOf_append db dbI _ x hatt, factsOf_fresh db x hrv hfresh,
        List.nil_append, filter_singleton_eq _ x (by exact rfl)]
      simp [hi]

/-- `createStudent` with non-negative initial hours preserves the ledger
invariant. -/
theorem createStudent_invariant (db : DB) (cid : Nat) (today : Int)
    (name : String) (init : Int) (db' : DB) (i : Nat)
    (hinv : Invariant db) (hpos : 0 ≤ init)
    (h : createStudent db cid today name init = .ok (db', i)) :
    Invariant db' := by
  obtain ⟨hsc, hnd, hrv, hto⟩ := hinv
  cases hg : getOpenGroup db cid with
  | error e =>
    rw [createStudent_err_gate db cid today name init e hg] at h
    exact absurd h (by simp)
  | ok g =>
    by_cases hname : isBlank name = true
    · have hred : createStudent db cid today name init = .error .invalidInput := by
        unfold createStudent
        simp only [hg]
        rw [if_pos hname]
      rw [hred] at h
      exact absurd h (by simp)
    · rw [createStudent_ok db cid today name init g hg hname] at h
      simp only [Except.ok.injEq] at h
      have hdb : db' = (createStudentBody db g cid today init).1 := by rw [h]
      subst hdb
      have hfresh := maxStudentId_fresh db
      have hfacts0 : factsOf db (maxStudentId db + 1) = [] :=
        factsOf_fresh db _ hrv hfresh
      by_cases hi : 0 < init
      · simp only [createStudentBody]
        rw [if_pos hi]
        rw [if_neg (by
          intro hcond
          rw [gocl_attendance] at hcond
          dsimp only at hcond
          rw [any_attKey_eq_false db _ _ hfacts0] at hcond
          exact Bool.false_ne_true hcond)]
        dsimp only
        apply insert_fact_invariant db _ (maxStudentId db + 1) _ _ cid g.id init
        · dsimp only
          congr 1
          exact (gocl_attendance _ g.id today).trans rfl
        · dsimp only
          exact (gocl_students _ g.id today).trans rfl
        · exact hsc
        · exact hnd
        · exact hrv
        · exact hto
        · exact hfresh
        · exact hi
      · have hz : init = 0 := by omega
        simp only [createStudentBody]
        rw [if_neg hi]
        dsimp only
        refine ⟨?_, ?_, ?_, ?_⟩
        · intro a ha
          exact hsc a ha
        · unfold studentIdsNodup
          dsimp only
          rw [List.map_append]
          exact nodup_append_singleton hnd hfresh
        · intro a ha
          dsimp only
          rw [List.map_append]
          exact List.mem_append_left _ (hrv a ha)
        · intro s' hs'
          dsimp only at hs'
          rcases List.mem_append.mp hs' with h1 | h1
          · have hfo : factsOf { db with students := db.students ++ [{
                id := maxStudentId db + 1, group_id := g.id,
                is_deleted := false, total_absent_hours := init }] } s'.id =
                factsOf db s'.id := rfl
            rw [specTotal_congr s'.id hfo]
            exact hto s' h1
          · rw [List.mem_singleton.mp h1]
            show init = specTotal _ (maxStudentId db + 1)
            rw [hz]
            exact (specTotal_nil _ _ hfacts0).symm

/-- Inversion of a successful `markDay`. -/
theorem markDay_ok_cases (db : DB) (cid : Nat) (today d : Int)
    (records : List MarkRecord) (db' : DB) (n : Nat)
    (h : markDay db cid today d records = .ok (db', n)) :
    ∃ g, getOpenGroup db cid = .ok g ∧
      ((weekBounds today).1 ≤ d ∧ d ≤ (weekBounds today).2) ∧
      db' = (markDayBody db g cid d records).1 := by
  cases hg : getOpenGroup db cid with
  | error e =>
    rw [markDay_err_gate db cid today d records e hg] at h
    exact absurd h (by simp)
  | ok g =>
    by_cases hw : (weekBounds today).1 ≤ d ∧ d ≤ (weekBounds today).2
    · rw [markDay_ok db cid today d records g hg hw] at h
      simp only [Except.ok.injEq] at h
      exact ⟨g, rfl, hw, by rw [h]⟩
    · rw [markDay_err_window db cid today d records g hg hw] at h
      exact absurd h (by simp)

/-- Inversion of a successful `markStudent`. -/
theorem markStudent_ok_cases (db : DB) (cid : Nat) (today : Int) (sid : Nat)
    (d nb : Int) (c : String) (db' : DB) (t : Int)
    (h : markStudent db cid today sid d nb c = .ok (db', t)) :
    ∃ g, getOpenGroup db cid = .ok g ∧ ¬(nb < 0 ∨ 8 < nb) ∧
      db' = (markStudentBody db g cid sid d nb c).1 := by
  cases hg : getOpenGroup db cid with
  | error e =>
    rw [markStudent_err_gate db cid today sid d nb c e hg] at h
    exact absurd h (by simp)
  | ok g =>
    by_cases hsid : sid = 0
    · have hred : markStudent db cid today sid d nb c = .error .invalidInput := by
        unfold markStudent
        simp only [hg]
        rw [if_pos (by simpa using hsid)]
      rw [hred] at h
      exact absurd h (by simp)
    · by_cases hw : (weekBounds today).1 ≤ d ∧ d ≤ (weekBounds today).2
      · by_cases hnb : nb < 0 ∨ 8 < nb
        · have hred : markStudent db cid today sid d nb c = .error .invalidHours := by
            unfold markStudent
            simp only [hg]
            rw [if_neg (by simpa using hsid), if_neg (not_not_intro hw), if_pos hnb]
          rw [hred] at h
          exact absurd h (by simp)
        · cases hf : db.students.find?
              (fun s => s.id == sid && s.group_id == g.id && !s.is_deleted) with
          | none =>
            have hred : markStudent db cid today sid d nb c = .error .notFound := by
              unfold markStudent
              simp only [hg]
              rw [if_neg (by simpa using hsid), if_neg (not_not_intro hw), if_neg hnb]
              simp only [hf]
            rw [hred] at h
            exact absurd h (by simp)
          | some s0 =>
            rw [markStudent_ok db cid today sid d nb c g s0 hg hsid hw hnb hf] at h
            simp only [Except.ok.injEq] at h
            exact ⟨g, rfl, hnb, by rw [h]⟩
      · rw [markStudent_err_window db cid today sid d nb c g hg hsid hw] at h
        exact absurd h (by simp)

/-- Inversion of a successful `saveWeek`. -/
theorem saveWeek_ok_cases (db : DB) (cid : Nat) (today ws : Int)
    (days : List DayRecords) (db' : DB) (n : Nat)
    (h : saveWeek db cid today ws days = .ok (db', n)) :
    ∃ g, getOpenGroup db cid = .ok g ∧ weekday today = 5 ∧
      db' = (saveWeekBody db g cid (ws - weekday ws) days).1 := by
  cases hg : getOpenGroup db cid with
  | error e =>
    rw [saveWeek_err_gate db cid today ws days e hg] at h
    exact absurd h (by simp)
  | ok g =>
    by_cases hd : weekday today = 5
    · by_cases hm : ws - weekday ws = (weekBounds today).1
      · rw [saveWeek_ok db cid today ws days g hg hd hm] at h
        simp only [Except.ok.injEq] at h
        exact ⟨g, rfl, hd, by rw [h]⟩
      · rw [saveWeek_err_window db cid today ws days g hg hd hm] at h
        exact absurd h (by simp)
    · rw [saveWeek_err_wrongDay db cid today ws days g hg hd] at h
      exact absurd h (by simp)

/-- Inversion of a successful `createStudent`. -/
theorem createStudent_ok_cases (db : DB) (cid : Nat) (today : Int)
    (name : String) (init : Int) (db' : DB) (i : Nat)
    (h : createStudent db cid today name init = .ok (db', i)) :
    ∃ g, getOpenGroup db cid = .ok g ∧
      db' = (createStudentBody db g cid today init).1 := by
  cases hg : getOpenGroup db cid with
  | error e =>
    rw [createStudent_err_gate db cid today name init e hg] at h
    exact absurd h (by simp)
  | ok g =>
    by_cases hname : isBlank name = true
    · have hred : createStudent db cid today name init = .error .invalidInput := by
        unfold createStudent
        simp only [hg]
        rw [if_pos hname]
      rw [hred] at h
      exact absurd h (by simp)
    · rw [createStudent_ok db cid today name init g hg hname] at h
      simp only [Except.ok.injEq] at h
      exact ⟨g, rfl, by rw [h]⟩

/-- Inversion of a successful `justifyAttendance`. -/
theorem justify_ok_cases (db : DB) (uid fid aid : Nat) (flag : Bool)
    (text : String) (db' : DB)
    (h : justifyAttendance db uid fid aid flag text = .ok db') :
    db' = { db with attendance := (updateFirst
      (fun a => a.id == aid && attInFaculty db fid a)
      (fun a => { a with is_reasoned := flag, reason_text := text,
                         reasoned_by := some uid }) db.attendance) } := by
  unfold justifyAttendance at h
  split at h
  · simp only [Except.ok.injEq] at h
    rw [h]
  · exact absurd h (by simp)

/-- A successful `deleteStudent` only touches the students table. -/
theorem deleteStudent_ok_att (db : DB) (cid sid : Nat) (db' : DB)
    (h : deleteStudent db cid sid = .ok db') :
    db'.attendance = db.attendance ∧ db'.lessons = db.lessons := by
  unfold deleteStudent at h
  cases hg : getOpenGroup db cid with
  | error e => rw [hg] at h; exact absurd h (by simp)
  | ok g =>
    simp only [hg] at h
    split at h
    · exact absurd h (by simp)
    · simp only [Except.ok.injEq] at h
      rw [← h]
      exact ⟨rfl, rfl⟩

/-- A successful `updateStudent` changes nothing in the modelled state. -/
theorem updateStudent_ok_eq (db : DB) (cid sid : Nat) (db' : DB)
    (h : updateStudent db cid sid = .ok db') : db' = db := by
  unfold updateStudent at h
  cases hg : getOpenGroup db cid with
  | error e => rw [hg] at h; exact absurd h (by simp)
  | ok g =>
    simp only [hg] at h
    split at h
    · exact absurd h (by simp)
    · simp only [Except.ok.injEq] at h
      exact h.symm

/-- A successful `closeGroup` only touches the groups table. -/
theorem closeGroup_ok_att (db : DB) (fid gid : Nat) (db' : DB)
    (h : closeGroup db fid gid = .ok db') :
    db'.attendance = db.attendance ∧ db'.students = db.students := by
  unfold closeGroup at h
  cases hf : db.groups.find? (vdGroupKey fid gid) with
  | none => rw [hf] at h; exact absurd h (by simp)
  | some g =>
    simp only [hf] at h
    split at h
    · exact absurd h (by simp)
    · simp only [Except.ok.injEq] at h
      rw [← h]
      exact ⟨rfl, rfl⟩

/-- A successful `reopenGroup` only touches the groups table. -/
theorem reopenGroup_ok_att (db : DB) (fid gid : Nat) (db' : DB)
    (h : reopenGroup db fid gid = .ok db') :
    db'.attendance = db.attendance ∧ db'.students = db.students := by
  unfold reopenGroup at h
  cases hf : db.groups.find? (vdGroupKey fid gid) with
  | none => rw [hf] at h; exact absurd h (by simp)
  | some g =>
    simp only [hf] at h
    split at h
    · exact absurd h (by simp)
    · simp only [Except.ok.injEq] at h
      rw [← h]
      exact ⟨rfl, rfl⟩

/-- When no row matched, `updateFirst` distributes over an append. -/
theorem updateFirst_append_of_none (p : α → Bool) (f : α → α) :
    ∀ l l2 : List α, l.any p = false →
      updateFirst p f (l ++ l2) = l ++ updateFirst p f l2 := by
  intro l
  induction l with
  | nil => intro l2 _; rfl
  | cons x xs ih =>
    intro l2 h
    simp only [List.any_cons, Bool.or_eq_false_iff] at h
    simp [updateFirst, h.1, ih l2 h.2]

/-- Two states with equal tables and counters are equal. -/
theorem DB_ext {a b : DB} (h1 : a.groups = b.groups)
    (h2 : a.students = b.students) (h3 : a.lessons = b.lessons)
    (h4 : a.attendance = b.attendance)
    (h5 : a.next_lesson_id = b.next_lesson_id)
    (h6 : a.next_att_id = b.next_att_id) : a = b := by
  cases a
  cases b
  simp_all

/-- Attendance table of an upsert that found an existing row. -/
theorem upsert_att_of_any (db : DB) (lid sid : Nat) (nb : Int) (c : String)
    (uid : Nat) (h : db.attendance.any (attKey sid lid) = true) :
    (upsertAttendance db lid sid nb c uid).attendance =
      updateFirst (attKey sid lid)
        (fun a => { a with nb_hours := nb,
                           status := if 0 < nb then "absent" else "present",
                           comment := c,
                           marked_by := uid }) db.attendance := by
  unfold upsertAttendance
  rw [if_pos h]

/-- Attendance table of an upsert that inserted a new row. -/
theorem upsert_att_of_not_any (db : DB) (lid sid : Nat) (nb : Int)
    (c : String) (uid : Nat)
    (h : ¬db.attendance.any (attKey sid lid) = true) :
    (upsertAttendance db lid sid nb c uid).attendance =
      db.attendance ++ [{ id := db.next_att_id,
                          student_id := sid,
                          lesson_id := lid,
                          status := if 0 < nb then "absent" else "present",
                          nb_hours := nb,
                          comment := c,
                          is_reasoned := false,
                          reason_text := "",
                          reasoned_by := none,
                          marked_by := uid }] := by
  unfold upsertAttendance
  rw [if_neg h]

/-- After an upsert its own key always matches some row. -/
theorem upsert_any_self (db : DB) (lid sid : Nat) (nb : Int) (c : String)
    (uid : Nat) :
    (upsertAttendance db lid sid nb c uid).attendance.any
      (attKey sid lid) = true := by
  have h := upsert_mem_attKeys_self db lid sid nb c uid
  rw [mem_attKeys_iff] at h
  rcases h with ⟨a, ha, h1, h2⟩
  rw [List.any_eq_true]
  exact ⟨a, ha, by simp [attKey, h1, h2]⟩

/-- Upsert never changes the lesson id counter. -/
theorem upsert_next_lesson_id (db : DB) (lid sid : Nat) (nb : Int)
    (c : String) (uid : Nat) :
    (upsertAttendance db lid sid nb c uid).next_lesson_id =
      db.next_lesson_id := by
  unfold upsertAttendance; split <;> rfl

/-- An updating upsert keeps the attendance id counter. -/
theorem upsert_next_att_of_any (db : DB) (lid sid : Nat) (nb : Int)
    (c : String) (uid : Nat)
    (h : db.attendance.any (attKey sid lid) = true) :
    (upsertAttendance db lid sid nb c uid).next_att_id = db.next_att_id := by
  unfold upsertAttendance
  rw [if_pos h]

/-- The upsert is idempotent: a second identical application is a no-op. -/
theorem upsert_idem (db : DB) (lid sid : Nat) (nb : Int) (c : String)
    (uid : Nat) :
    upsertAttendance (upsertAttendance db lid sid nb c uid) lid sid nb c uid =
      upsertAttendance db lid sid nb c uid := by
  apply DB_ext
  · rw [upsert_groups, upsert_groups]
  · rw [upsert_students, upsert_students]
  · rw [upsert_lessons, upsert_lessons]
  · rw [upsert_att_of_any _ _ _ _ _ _ (upsert_any_self db lid sid nb c uid)]
    by_cases hany : db.attendance.any (attKey sid lid) = true
    · rw [upsert_att_of_any db lid sid nb c uid hany]
      exact updateFirst_updateFirst _ _ (by intro a ha; exact ha) (by intro a; rfl) _
    · rw [upsert_att_of_not_any db lid sid nb c uid hany]
      rw [updateFirst_append_of_none _ _ _ _ (by simpa using hany)]
      congr 1
      simp [updateFirst, attKey]
  · rw [upsert_next_lesson_id, upsert_next_lesson_id]
  · rw [upsert_next_att_of_any _ _ _ _ _ _ (upsert_any_self db lid sid nb c uid)]

/-- Every row of an upserted table is an old row or carries the written
hours. -/
theorem upsert_mem_or_nb (db : DB) (lid sid : Nat) (nb : Int) (c : String)
    (uid : Nat) :
    ∀ a ∈ (upsertAttendance db lid sid nb c uid).attendance,
      a ∈ db.attendance ∨ a.nb_hours = nb := by
  unfold upsertAttendance
  split
  · dsimp only
    intro a ha
    rcases mem_updateFirst _ _ _ a ha with h1 | ⟨x, _, _, rfl⟩
    · exact Or.inl h1
    · exact Or.inr rfl
  · dsimp only
    intro a ha
    rcases List.mem_append.mp ha with h1 | h1
    · exact Or.inl h1
    · rw [List.mem_singleton.mp h1]
      exact Or.inr rfl

/-- `newInRange` is reflexive. -/
theorem newInRange_refl (db : DB) : newInRange db db :=
  fun a ha => Or.inl ha

/-- `newInRange` holds when the attendance tables are equal. -/
theorem newInRange_of_att_eq {db db' : DB}
    (h : db'.attendance = db.attendance) : newInRange db db' := by
  intro a ha
  rw [h] at ha
  exact Or.inl ha

/-- `newInRange` is transitive. -/
theorem newInRange_trans {db1 db2 db3 : DB} (h1 : newInRange db1 db2)
    (h2 : newInRange db2 db3) : newInRange db1 db3 := by
  intro a ha
  rcases h2 a ha with h | h
  · exact h1 a h
  · exact Or.inr h

/-- An upsert with validated hours writes only in-range rows. -/
theorem upsert_newInRange (db : DB) (lid sid : Nat) (nb : Int) (c : String)
    (uid : Nat) (hnb : 0 ≤ nb ∧ nb ≤ 8) :
    newInRange db (upsertAttendance db lid sid nb c uid) := by
  intro a ha
  rcases upsert_mem_or_nb db lid sid nb c uid a ha with h | h
  · exact Or.inl h
  · exact Or.inr (h ▸ hnb)

/-- The batch loop writes only in-range rows. -/
theorem foldMark_newInRange (lid uid : Nat) (valid : List Nat)
    (records : List MarkRecord) :
    ∀ st : DB × List Nat,
      newInRange st.1 (records.foldl (processRecord lid uid valid) st).1 := by
  induction records with
  | nil => intro st; exact newInRange_refl _
  | cons r rest ih =>
    intro st
    rw [List.foldl_cons]
    refine newInRange_trans ?_ (ih _)
    obtain ⟨db, upd⟩ := st
    by_cases hc : r.student_id ∈ valid
    · by_cases hr : r.nb_hours < 0 ∨ 8 < r.nb_hours
      · simpa [processRecord, hc, hr] using newInRange_refl db
      · have h2 := upsert_newInRange db lid r.student_id r.nb_hours r.comment
          uid (by omega)
        simpa [processRecord, hc, hr] using h2
    · simpa [processRecord, hc] using newInRange_refl db

/-- The day loop writes only in-range rows. -/
theorem foldDays_newInRange (gid uid : Nat) (m s : Int) (valid : List Nat)
    (days : List DayRecords) :
    ∀ st : DB × List Nat × Nat,
      newInRange st.1 (days.foldl (processDay gid uid m s valid) st).1 := by
  induction days with
  | nil => intro st; exact newInRange_refl _
  | cons dr rest ih =>
    intro st
    rw [List.foldl_cons]
    refine newInRange_trans ?_ (ih _)
    obtain ⟨db, sids, count⟩ := st
    by_cases hin : m ≤ dr.day ∧ dr.day ≤ s
    · simp only [processDay, if_neg (not_not_intro hin)]
      rw [foldWeek_eq]
      dsimp only
      refine newInRange_trans ?_ (foldMark_newInRange _ _ _ _ _)
      exact newInRange_of_att_eq (gocl_attendance db gid dr.day)
    · simpa [processDay, hin] using newInRange_refl db

/-- Appending rows to the attendance table extends the key list. -/
theorem keysExtend_append (db db' : DB) (l : List AttendanceFact)
    (h : db'.attendance = db.attendance ++ l) : keysExtend db db' := by
  refine ⟨l.map (fun a => (a.student_id, a.lesson_id)), ?_⟩
  unfold attKeys
  rw [h, List.map_append]

/-- The write phase of `mark_day` only grows the attendance table. -/
theorem markDayBody_keysExtend (db : DB) (g : Group) (cid : Nat) (d : Int)
    (records : List MarkRecord) :
    keysExtend db (markDayBody db g cid d records).1 := by
  simp only [markDayBody]
  refine keysExtend_trans ?_ (keysExtend_of_att_eq (recalcFold_attendance _ _))
  refine keysExtend_trans ?_ (foldMark_keysExtend _ _ _ _ _)
  exact keysExtend_of_att_eq (gocl_attendance db g.id d)

/-- The write phase of `mark_day` writes only in-range rows. -/
theorem markDayBody_newInRange (db : DB) (g : Group) (cid : Nat) (d : Int)
    (records : List MarkRecord) :
    newInRange db (markDayBody db g cid d records).1 := by
  simp only [markDayBody]
  refine newInRange_trans ?_ (newInRange_of_att_eq (recalcFold_attendance _ _))
  refine newInRange_trans ?_ (foldMark_newInRange _ _ _ _ _)
  exact newInRange_of_att_eq (gocl_attendance db g.id d)

/-- The write phase of `mark_student` only grows the attendance table. -/
theorem markStudentBody_keysExtend (db : DB) (g : Group) (cid sid : Nat)
    (d nb : Int) (c : String) :
    keysExtend db (markStudentBody db g cid sid d nb c).1 := by
  simp only [markStudentBody]
  refine keysExtend_trans ?_ (keysExtend_of_att_eq (setTotal_attendance _ _))
  refine keysExtend_trans ?_ (upsert_keysExtend _ _ _ _ _ _)
  exact keysExtend_of_att_eq (gocl_attendance db g.id d)

/-- The write phase of `mark_student` writes only in-range rows. -/
theorem markStudentBody_newInRange (db : DB) (g : Group) (cid sid : Nat)
    (d nb : Int) (c : String) (hnb : 0 ≤ nb ∧ nb ≤ 8) :
    newInRange db (markStudentBody db g cid sid d nb c).1 := by
  simp only [markStudentBody]
  refine newInRange_trans ?_ (newInRange_of_att_eq (setTotal_attendance _ _))
  refine newInRange_trans ?_ (upsert_newInRange _ _ _ _ _ _ hnb)
  exact newInRange_of_att_eq (gocl_attendance db g.id d)

/-- The write phase of `save_week` only grows the attendance table. -/
theorem saveWeekBody_keysExtend (db : DB) (g : Group) (cid : Nat)
    (monday : Int) (days : List DayRecords) :
    keysExtend db (saveWeekBody db g cid monday days).1 := by
  simp only [saveWeekBody]
  refine keysExtend_trans ?_ (keysExtend_of_att_eq (recalcFold_attendance _ _))
  exact foldDays_keysExtend _ _ _ _ _ _ _

/-- The write phase of `save_week` writes only in-range rows. -/
theorem saveWeekBody_newInRange (db : DB) (g : Group) (cid : Nat)
    (monday : Int) (days : List DayRecords) :
    newInRange db (saveWeekBody db g cid monday days).1 := by
  simp only [saveWeekBody]
  refine newInRange_trans ?_ (newInRange_of_att_eq (recalcFold_attendance _ _))
  exact foldDays_newInRange _ _ _ _ _ _ _

/-- Every attendance row after `create_student` is an old row or the
transfer fact carrying the initial hours. -/
theorem createStudentBody_mem_or (db : DB) (g : Group) (cid : Nat)
    (today init_nb : Int) :
    ∀ a ∈ (createStudentBody db g cid today init_nb).1.attendance,
      a ∈ db.attendance ∨ a.nb_hours = init_nb := by
  simp only [createStudentBody]
  by_cases hi : 0 < init_nb
  · rw [if_pos hi]
    split
    · intro a ha
      dsimp only at ha
      rw [gocl_attendance] at ha
      exact Or.inl ha
    · intro a ha
      dsimp only at ha
      rcases List.mem_append.mp ha with h1 | h1
      · rw [gocl_attendance] at h1
        exact Or.inl h1
      · rw [List.mem_singleton.mp h1]
        exact Or.inr rfl
  · rw [if_neg hi]
    intro a ha
    exact Or.inl ha

/-- The write phase of `create_student` only grows the attendance table. -/
theorem createStudentBody_keysExtend (db : DB) (g : Group) (cid : Nat)
    (today init_nb : Int) :
    keysExtend db (createStudentBody db g cid today init_nb).1 := by
  simp only [createStudentBody]
  by_cases hi : 0 < init_nb
  · rw [if_pos hi]
    split
    · exact keysExtend_of_att_eq ((gocl_attendance _ g.id today).trans rfl)
    · apply keysExtend_append
      dsimp only
      rw [gocl_attendance]
  · rw [if_neg hi]
    exact keysExtend_of_att_eq rfl

/-- A successful `justifyAttendance` keeps the attendance keys. -/
theorem justify_keysExtend (db : DB) (uid fid aid : Nat) (flag : Bool)
    (text : String) (db' : DB)
    (h : justifyAttendance db uid fid aid flag text = .ok db') :
    keysExtend db db' := by
  rw [justify_ok_cases db uid fid aid flag text db' h]
  refine ⟨[], ?_⟩
  rw [List.append_nil]
  unfold attKeys
  dsimp only
  apply map_updateFirst
  intro a _
  rfl

/-- Key lists only depend on the attendance table. -/
theorem attKeys_congr {db1 db2 : DB} (h : db1.attendance = db2.attendance) :
    attKeys db1 = attKeys db2 := by
  unfold attKeys
  rw [h]

/-- A matched group row carries the searched group id. -/
theorem vdGroupKey_id (fid gid : Nat) (g : Group)
    (h : vdGroupKey fid gid g = true) : g.id = gid := by
  simp only [vdGroupKey, Bool.and_eq_true, beq_iff_eq] at h
  exact h.1.1

/-- A successful close marks the group closed and inactive, touching no
attendance fact or student row. -/
theorem closeGroup_sets (db : DB) (fid gid : Nat) (db' : DB)
    (h : closeGroup db fid gid = .ok db') :
    db'.attendance = db.attendance ∧ db'.students = db.students ∧
    ∃ g' ∈ db'.groups, g'.id = gid ∧ g'.is_closed = true ∧
      g'.is_active = some false := by
  have hatt := closeGroup_ok_att db fid gid db' h
  refine ⟨hatt.1, hatt.2, ?_⟩
  unfold closeGroup at h
  cases hf : db.groups.find? (vdGroupKey fid gid) with
  | none => rw [hf] at h; exact absurd h (by simp)
  | some g =>
    simp only [hf] at h
    split at h
    · exact absurd h (by simp)
    · simp only [Except.ok.injEq] at h
      subst h
      have hany : db.groups.any (vdGroupKey fid gid) = true :=
        List.any_eq_true.mpr ⟨g, List.mem_of_find?_eq_some hf, List.find?_some hf⟩
      rcases exists_updateFirst_of_any (vdGroupKey fid gid) _ db.groups hany
        with ⟨x, _, hpx, hmem⟩
      exact ⟨_, hmem, vdGroupKey_id fid gid x hpx, rfl, rfl⟩

/-- A successful reopen clears the lock and reactivates the group,
touching no attendance fact or student row. -/
theorem reopenGroup_sets (db : DB) (fid gid : Nat) (db' : DB)
    (h : reopenGroup db fid gid = .ok db') :
    db'.attendance = db.attendance ∧ db'.students = db.students ∧
    ∃ g' ∈ db'.groups, g'.id = gid ∧ g'.is_closed = false ∧
      g'.is_active = some true := by
  have hatt := reopenGroup_ok_att db fid gid db' h
  refine ⟨hatt.1, hatt.2, ?_⟩
  unfold reopenGroup at h
  cases hf : db.groups.find? (vdGroupKey fid gid) with
  | none => rw [hf] at h; exact absurd h (by simp)
  | some g =>
    simp only [hf] at h
    split at h
    · exact absurd h (by simp)
    · simp only [Except.ok.injEq] at h
      subst h
      have hany : db.groups.any (vdGroupKey fid gid) = true :=
        List.any_eq_true.mpr ⟨g, List.mem_of_find?_eq_some hf, List.find?_some hf⟩
      rcases exists_updateFirst_of_any (vdGroupKey fid gid) _ db.groups hany
        with ⟨x, _, hpx, hmem⟩
      exact ⟨_, hmem, vdGroupKey_id fid gid x hpx, rfl, rfl⟩

/-- The gate rejects only with the two lock conditions. -/
theorem getOpenGroup_error_cases (db : DB) (cid : Nat) (e : ApiError)
    (h : getOpenGroup db cid = .error e) :
    e = .noActiveGroup ∨ e = .groupClosed := by
  unfold getOpenGroup at h
  cases hg : getGroup db cid with
  | none =>
    simp only [hg] at h
    simp only [Except.error.injEq] at h
    exact Or.inl h.symm
  | some g =>
    simp only [hg] at h
    split at h
    · simp only [Except.error.injEq] at h
      exact Or.inr h.symm
    · exact absurd h (by simp)

/-- A deactivated group never passes the active-group filter. -/
theorem groupMatches_inactive (cid : Nat) (g : Group)
    (h : g.is_active = some false) : groupMatches cid g = false := by
  simp [groupMatches, h]

/-- `update_student` propagates a gate failure. -/
theorem updateStudent_err_gate (db : DB) (cid sid : Nat) (e : ApiError)
    (hg : getOpenGroup db cid = .error e) :
    updateStudent db cid sid = .error e := by
  unfold updateStudent; simp only [hg]

/-- `delete_student` propagates a gate failure. -/
theorem deleteStudent_err_gate (db : DB) (cid sid : Nat) (e : ApiError)
    (hg : getOpenGroup db cid = .error e) :
    deleteStudent db cid sid = .error e := by
  unfold deleteStudent; simp only [hg]

/-- `create_student` reduction on a gate failure is `createStudent_err_gate`;
the count of a `mark_day` batch is the number of accepted records. -/
theorem markDayBody_count (db : DB) (g : Group) (cid : Nat) (d : Int)
    (records : List MarkRecord) :
    (markDayBody db g cid d records).2 =
      (records.filter (accepted (validSids db g.id))).length := by
  simp only [markDayBody]
  rw [foldMark_updated, List.nil_append, List.length_map,
    validSids_congr g.id (gocl_students db g.id d)]

/-- After a `mark_day` batch every accepted record has a fact on the
resolved lesson. -/
theorem markDayBody_hasFact (db : DB) (g : Group) (cid : Nat) (d : Int)
    (records : List MarkRecord) :
    ∀ r ∈ records, accepted (validSids db g.id) r = true →
      ∃ a ∈ (markDayBody db g cid d records).1.attendance,
        a.student_id = r.student_id ∧
        a.lesson_id = (getOrCreateLesson db g.id d).2.id := by
  intro r hr hacc
  have hacc2 : accepted (validSids (getOrCreateLesson db g.id d).1 g.id) r = true := by
    rw [validSids_congr g.id (gocl_students db g.id d)]
    exact hacc
  have hmem := foldMark_mem_attKeys (getOrCreateLesson db g.id d).2.id cid
    (validSids (getOrCreateLesson db g.id d).1 g.id) records
    ((getOrCreateLesson db g.id d).1, []) r hr hacc2
  rw [← mem_attKeys_iff]
  simp only [markDayBody]
  rw [attKeys_congr (recalcFold_attendance _ _)]
  exact hmem

/-- The update branch of the upsert keeps every justification field. -/
theorem upsert_justify_frame (db : DB) (lid sid : Nat) (nb : Int)
    (c : String) (uid : Nat)
    (h : db.attendance.any (attKey sid lid) = true) :
    (upsertAttendance db lid sid nb c uid).attendance.map justifyFields =
      db.attendance.map justifyFields := by
  rw [upsert_att_of_any db lid sid nb c uid h]
  apply map_updateFirst
  intro a _
  rfl

/-- The update branch of the upsert writes the new curator fields into a
row of its own pair. -/
theorem upsert_written (db : DB) (lid sid : Nat) (nb : Int) (c : String)
    (uid : Nat) (h : db.attendance.any (attKey sid lid) = true) :
    ∃ a ∈ (upsertAttendance db lid sid nb c uid).attendance,
      a.student_id = sid ∧ a.lesson_id = lid ∧ a.nb_hours = nb ∧
      a.comment = c ∧ a.marked_by = uid ∧
      a.status = (if 0 < nb then "absent" else "present") := by
  rw [upsert_att_of_any db lid sid nb c uid h]
  rcases exists_updateFirst_of_any (attKey sid lid) _ db.attendance h
    with ⟨x, _, hpx, hmem⟩
  exact ⟨_, hmem, attKey_student sid lid x hpx, attKey_lesson sid lid x hpx,
    rfl, rfl, rfl, rfl⟩

/-- `justify_attendance` keeps every curator-written field and the
students table. -/
theorem justify_frame (db : DB) (uid fid aid : Nat) (flag : Bool)
    (text : String) (db' : DB)
    (h : justifyAttendance db uid fid aid flag text = .ok db') :
    db'.students = db.students ∧ db'.groups = db.groups ∧
    db'.attendance.map markFields = db.attendance.map markFields := by
  rw [justify_ok_cases db uid fid aid flag text db' h]
  refine ⟨rfl, rfl, ?_⟩
  dsimp only
  apply map_updateFirst
  intro a _
  rfl

/-- `justify_attendance` writes the justification fields into the
targeted row. -/
theorem justify_written (db : DB) (uid fid aid : Nat) (flag : Bool)
    (text : String) (db' : DB)
    (h : justifyAttendance db uid fid aid flag text = .ok db') :
    ∃ a ∈ db'.attendance, a.id = aid ∧ a.is_reasoned = flag ∧
      a.reason_text = text ∧ a.reasoned_by = some uid := by
  have hany : db.attendance.any
      (fun a => a.id == aid && attInFaculty db fid a) = true := by
    by_contra hn
    unfold justifyAttendance at h
    rw [if_neg hn] at h
    exact absurd h (by simp)
  rw [justify_ok_cases db uid fid aid flag text db' h]
  dsimp only
  rcases exists_updateFirst_of_any _ _ db.attendance hany
    with ⟨x, _, hpx, hmem⟩
  have hid : x.id = aid := by
    simp only [Bool.and_eq_true, beq_iff_eq] at hpx
    exact hpx.1
  exact ⟨_, hmem, hid, rfl, rfl, rfl⟩

/-- `markedCount` only depends on the attendance table. -/
theorem markedCount_congr {db1 db2 : DB} (h : db1.attendance = db2.attendance)
    (lid : Nat) : markedCount db1 lid = markedCount db2 lid := by
  unfold markedCount
  rw [h]

/-- Lesson resolution when the lesson already exists. -/
theorem gocl_of_some (db : DB) (gid : Nat) (d : Int) (l : Lesson)
    (hf : db.lessons.find? (lessonKey gid d) = some l) :
    getOrCreateLesson db gid d = (db, l) := by
  unfold getOrCreateLesson
  simp only [hf]

/-- Lesson resolution when no lesson exists yet. -/
theorem gocl_of_none (db : DB) (gid : Nat) (d : Int)
    (hf : db.lessons.find? (lessonKey gid d) = none) :
    getOrCreateLesson db gid d =
      ({ db with
          lessons := db.lessons ++ [{ id := db.next_lesson_id,
                                      group_id := gid, lesson_date := d }],
          next_lesson_id := db.next_lesson_id + 1 },
       { id := db.next_lesson_id, group_id := gid, lesson_date := d }) := by
  unfold getOrCreateLesson
  simp only [hf]

/-- When the first list holds no match, `find?` moves to the second. -/
theorem find_append_none (p : α → Bool) :
    ∀ l1 l2 : List α, l1.find? p = none → (l1 ++ l2).find? p = l2.find? p := by
  intro l1
  induction l1 with
  | nil => intro l2 _; rfl
  | cons x xs ih =>
    intro l2 h
    rw [List.find?_eq_none] at h
    have hx : ¬p x = true := h x (List.mem_cons_self x xs)
    rw [List.cons_append, List.find?_cons_of_neg _ hx, ih]
    rw [List.find?_eq_none]
    intro a ha
    exact h a (List.mem_cons_of_mem x ha)

/-- A singleton whose element matches is found. -/
theorem lesson_find_singleton (l0 : Lesson) (g' : Nat) (d' : Int)
    (h : lessonKey g' d' l0 = true) :
    List.find? (lessonKey g' d') [l0] = some l0 := by
  rw [List.find?_cons_of_pos _ h]

/-- A singleton whose element matches filters to itself. -/
theorem lesson_filter_singleton (l0 : Lesson) (g' : Nat) (d' : Int)
    (h : lessonKey g' d' l0 = true) :
    List.filter (lessonKey g' d') [l0] = [l0] := by
  simp [List.filter, h]

/-- Claim C1 (amended): starting from a state satisfying the ledger
invariant, every successful `markDay`, `markStudent` and `saveWeek`
re-establishes the cache equation — each student's `total_absent_hours`
equals the sum of `nb_hours` over that student's facts with positive
hours — and so does `createStudent` when its `initial_nb_hours` is
non-negative.  The claim's unrestricted form is refuted by
`createStudent` with a negative initial value, which writes the negative
total verbatim while creating no fact (see the counterexample). -/
theorem C1_total_cache (db : DB) (hinv : Invariant db) :
    (∀ (cid : Nat) (today d : Int) (records : List MarkRecord) (db' : DB)
        (n : Nat), markDay db cid today d records = .ok (db', n) →
      totalsOk db') ∧
    (∀ (cid : Nat) (today : Int) (sid : Nat) (d nb : Int) (c : String)
        (db' : DB) (t : Int),
      markStudent db cid today sid d nb c = .ok (db', t) → totalsOk db') ∧
    (∀ (cid : Nat) (today ws : Int) (days : List DayRecords) (db' : DB)
        (n : Nat), saveWeek db cid today ws days = .ok (db', n) →
      totalsOk db') ∧
    (∀ (cid : Nat) (today : Int) (name : String) (init : Int) (db' : DB)
        (i : Nat), 0 ≤ init →
      createStudent db cid today name init = .ok (db', i) →
      totalsOk db') := by
  refine ⟨?_, ?_, ?_, ?_⟩
  · intro cid today d records db' n h
    exact (markDay_invariant db cid today d records db' n hinv h).2.2.2
  · intro cid today sid d nb c db' t h
    exact (markStudent_invariant db cid today sid d nb c db' t hinv h).2.2.2
  · intro cid today ws days db' n h
    exact (saveWeek_invariant db cid today ws days db' n hinv h).2.2.2
  · intro cid today name init db' i hpos h
    exact (createStudent_invariant db cid today name init db' i hinv hpos h).2.2.2

/-- Witness for Claim C1: the concrete `markDay` run on `exDB`
re-establishes the cache equation. -/
theorem C1_total_cache_witness : totalsOk exMarked :=
  (C1_total_cache exDB (by decide)).1 1 0 0
    [{ student_id := 1, nb_hours := 2, comment := "late" }] exMarked 1
    (by decide)

/-- Counterexample to claim C1 as stated: `createStudent` with
`initial_nb_hours = -5` succeeds from an invariant-satisfying state and
leaves a student whose cached total (-5) is not the sum over its facts
(0, there are none). -/
theorem C1_counterexample :
    Invariant exDB ∧
    createStudent exDB 1 0 "A" (-5) = .ok (exNegCreate, 2) ∧
    ¬totalsOk exNegCreate := by
  refine ⟨by decide, by decide, by decide⟩

/-- Claim C2 (amended): for every group and date the daily batch and the
weekly per-day report agree, computing `total` as the count of
non-deleted students of the group, `marked` as the fact count of the
resolved lesson (0 when the lesson is missing), and the status as
`codeStatus marked total`: `NOT_STARTED` when `marked = 0`, `COMPLETED`
whenever `total ≤ marked` — even when `total = 0` — else `IN_PROGRESS`.
The spec's `total > 0` proviso on `COMPLETED` is not implemented (see
the counterexample). -/
theorem C2_completion_status (db : DB) (gid : Nat) (d : Int) :
    dailyStatus db gid d = weeklyDayStatus db gid d ∧
    dailyStatus db gid d =
      (match lessonFor db gid d with
       | none => (codeStatus 0 (totalStudents db gid), 0, totalStudents db gid)
       | some l => (codeStatus (markedCount db l.id) (totalStudents db gid),
                    markedCount db l.id, totalStudents db gid)) := by
  refine ⟨rfl, ?_⟩
  unfold dailyStatus codeStatus
  cases hl : lessonFor db gid d with
  | none => rfl
  | some l =>
    dsimp only
    by_cases h0 : markedCount db l.id = 0
    · rw [if_pos h0, if_pos h0]
    · rw [if_neg h0, if_neg h0]
      by_cases h1 : totalStudents db gid ≤ markedCount db l.id
      · rw [if_pos h1, if_pos h1]
      · rw [if_neg h1, if_neg h1]

/-- Counterexample to claim C2 as stated: in the reachable state
`exEmptied` — mark one student, then soft-delete them — the lesson keeps
its one fact while the group has zero non-deleted students, so
`marked = 1 ≥ total = 0` with `total = 0`; the code reports `COMPLETED`
where the spec's `total > 0` proviso demands `IN_PROGRESS`. -/
theorem C2_counterexample :
    markDay exDB 1 0 0
      [{ student_id := 1, nb_hours := 2, comment := "late" }] =
      .ok (exMarked, 1) ∧
    deleteStudent exMarked 1 1 = .ok exEmptied ∧
    dailyStatus exEmptied 1 0 = ("COMPLETED", 1, 0) ∧
    claimStatus 1 0 = "IN_PROGRESS" := by
  refine ⟨by decide, by decide, by decide, by decide⟩

/-- Claim C3 (amended): every attendance row present after a successful
`markDay`, `markStudent` or `saveWeek` is either a row of the previous
state or carries hours in [0,8]; `createStudent`, however, writes its
`initial_nb_hours` into the transfer fact without validation, so its new
row only satisfies `nb_hours = init` — out of range whenever the caller
passes such a value (see the counterexample). -/
theorem C3_hours_range :
    (∀ (db : DB) (cid : Nat) (today d : Int) (records : List MarkRecord)
        (db' : DB) (n : Nat),
      markDay db cid today d records = .ok (db', n) → newInRange db db') ∧
    (∀ (db : DB) (cid : Nat) (today : Int) (sid : Nat) (d nb : Int)
        (c : String) (db' : DB) (t : Int),
      markStudent db cid today sid d nb c = .ok (db', t) →
      newInRange db db') ∧
    (∀ (db : DB) (cid : Nat) (today ws : Int) (days : List DayRecords)
        (db' : DB) (n : Nat),
      saveWeek db cid today ws days = .ok (db', n) → newInRange db db') ∧
    (∀ (db : DB) (cid : Nat) (today : Int) (name : String) (init : Int)
        (db' : DB) (i : Nat),
      createStudent db cid today name init = .ok (db', i) →
      ∀ a ∈ db'.attendance, a ∈ db.attendance ∨ a.nb_hours = init) := by
  refine ⟨?_, ?_, ?_, ?_⟩
  · intro db cid today d records db' n h
    obtain ⟨g, hg, hw, hdb⟩ := markDay_ok_cases db cid today d records db' n h
    subst hdb
    exact markDayBody_newInRange db g cid d records
  · intro db cid today sid d nb c db' t h
    obtain ⟨g, hg, hnb, hdb⟩ :=
      markStudent_ok_cases db cid today sid d nb c db' t h
    subst hdb
    exact markStudentBody_newInRange db g cid sid d nb c (by omega)
  · intro db cid today ws days db' n h
    obtain ⟨g, hg, hd, hdb⟩ := saveWeek_ok_cases db cid today ws days db' n h
    subst hdb
    exact saveWeekBody_newInRange db g cid (ws - weekday ws) days
  · intro db cid today name init db' i h
    obtain ⟨g, hg, hdb⟩ := createStudent_ok_cases db cid today name init db' i h
    subst hdb
    exact createStudentBody_mem_or db g cid today init

/-- Witness for Claim C3: the concrete `markDay` run writes only
in-range rows. -/
theorem C3_hours_range_witness : newInRange exDB exMarked :=
  C3_hours_range.1 exDB 1 0 0
    [{ student_id := 1, nb_hours := 2, comment := "late" }] exMarked 1
    (by decide)

/-- Counterexample to claim C3 as stated: `createStudent` with 100
initial hours stores an attendance fact carrying `nb_hours = 100`,
outside [0,8]. -/
theorem C3_counterexample :
    createStudent exDB 1 0 "A" 100 = .ok (exBigCreate, 2) ∧
    ∃ a ∈ exBigCreate.attendance, ¬(0 ≤ a.nb_hours ∧ a.nb_hours ≤ 8) := by
  refine ⟨by decide, by decide⟩

/-- Claim C4 (amended): closing a group sets `is_closed := true` and
forces `is_active := some false`; reopening restores `is_closed := false`
and `is_active := some true`; both touch neither attendance facts nor
student rows.  A deactivated group fails the curator's active-group
filter, so once the gate `getOpenGroup` rejects — necessarily with
`noActiveGroup` or `groupClosed` — every mutating curator call returns
that very error and, the error carrying no state, writes nothing.  For a
group closed by `closeGroup` the error observed is `noActiveGroup`
(the `is_active` filter fires before the `is_closed` check), not the
`GroupClosed` the spec promises — see the counterexample. -/
theorem C4_group_lock :
    (∀ (db : DB) (fid gid : Nat) (db' : DB),
      closeGroup db fid gid = .ok db' →
      db'.attendance = db.attendance ∧ db'.students = db.students ∧
      ∃ g' ∈ db'.groups, g'.id = gid ∧ g'.is_closed = true ∧
        g'.is_active = some false) ∧
    (∀ (db : DB) (fid gid : Nat) (db' : DB),
      reopenGroup db fid gid = .ok db' →
      db'.attendance = db.attendance ∧ db'.students = db.students ∧
      ∃ g' ∈ db'.groups, g'.id = gid ∧ g'.is_closed = false ∧
        g'.is_active = some true) ∧
    (∀ (cid : Nat) (g : Group), g.is_active = some false →
      groupMatches cid g = false) ∧
    (∀ (db : DB) (cid : Nat) (e : ApiError),
      getOpenGroup db cid = .error e →
      (e = .noActiveGroup ∨ e = .groupClosed) ∧
      (∀ (today d : Int) (records : List MarkRecord),
        markDay db cid today d records = .error e) ∧
      (∀ (today : Int) (sid : Nat) (d nb : Int) (c : String),
        markStudent db cid today sid d nb c = .error e) ∧
      (∀ (today ws : Int) (days : List DayRecords),
        saveWeek db cid today ws days = .error e) ∧
      (∀ (today : Int) (name : String) (init : Int),
        createStudent db cid today name init = .error e) ∧
      (∀ sid : Nat, updateStudent db cid sid = .error e) ∧
      (∀ sid : Nat, deleteStudent db cid sid = .error e)) := by
  refine ⟨closeGroup_sets, reopenGroup_sets, groupMatches_inactive, ?_⟩
  intro db cid e hg
  refine ⟨getOpenGroup_error_cases db cid e hg, ?_, ?_, ?_, ?_, ?_, ?_⟩
  · intro today d records
    exact markDay_err_gate db cid today d records e hg
  · intro today sid d nb c
    exact markStudent_err_gate db cid today sid d nb c e hg
  · intro today ws days
    exact saveWeek_err_gate db cid today ws days e hg
  · intro today name init
    exact createStudent_err_gate db cid today name init e hg
  · intro sid
    exact updateStudent_err_gate db cid sid e hg
  · intro sid
    exact deleteStudent_err_gate db cid sid e hg

/-- Witness for Claim C4: closing the concrete group touches no
attendance fact and the subsequent `markStudent` is rejected. -/
theorem C4_group_lock_witness :
    exClosed.attendance = exDB.attendance ∧
    markStudent exClosed 1 0 1 0 3 "" = .error .noActiveGroup :=
  ⟨(C4_group_lock.1 exDB 1 1 exClosed (by decide)).1,
   (C4_group_lock.2.2.2 exClosed 1 .noActiveGroup (by decide)).2.2.1
     0 1 0 3 ""⟩

/-- Counterexample to claim C4 as stated: after `closeGroup` the curator
call is rejected with `noActiveGroup`, because `close_group` also
deactivates the group and the curator's `_get_group` filter fires before
the `is_closed` check ever runs — not with the promised `GroupClosed`. -/
theorem C4_counterexample :
    closeGroup exDB 1 1 = .ok exClosed ∧
    markStudent exClosed 1 0 1 0 3 "" = .error .noActiveGroup ∧
    ApiError.noActiveGroup ≠ ApiError.groupClosed := by
  refine ⟨by decide, by decide, by decide⟩

/-- Claim C5: under an open group `saveWeek` fails with `wrongDay`
whenever today is not a Saturday, regardless of the payload, and on a
Saturday fails with `outOfWindow` unless the payload's declared week
start, snapped to its Monday, equals the current week's Monday; the
error return carries no state, so no lesson, attendance fact or total
is written. -/
theorem C5_saveWeek_window (db : DB) (cid : Nat) (today ws : Int)
    (days : List DayRecords) (g : Group)
    (hg : getOpenGroup db cid = .ok g) :
    (¬(weekday today = 5) →
      saveWeek db cid today ws days = .error .wrongDay) ∧
    (weekday today = 5 → ¬(ws - weekday ws = today - weekday today) →
      saveWeek db cid today ws days = .error .outOfWindow) := by
  constructor
  · intro hd
    exact saveWeek_err_wrongDay db cid today ws days g hg hd
  · intro hd hm
    exact saveWeek_err_window db cid today ws days g hg hd hm

/-- Witness for Claim C5: day 1 is a Tuesday, so the bulk save is
rejected with `wrongDay`; on Saturday (day 5) the previous week's start
(day 19 is in another week) is rejected with `outOfWindow`. -/
theorem C5_saveWeek_window_witness :
    saveWeek exDB 1 1 0 [] = .error .wrongDay ∧
    saveWeek exDB 1 5 19 [] = .error .outOfWindow :=
  ⟨(C5_saveWeek_window exDB 1 1 0 [] exGroup (by decide)).1 (by decide),
   (C5_saveWeek_window exDB 1 5 19 [] exGroup (by decide)).2 (by decide)
     (by decide)⟩

/-- Claim C6: under an open group, for every target date outside the
Monday-to-Saturday span of the current week, `markDay` rejects every
batch with `outOfWindow` and `markStudent` (its student id non-falsy)
rejects every payload with `outOfWindow`; the error return carries no
state, so no lesson is created, no fact written and no total changed. -/
theorem C6_day_window (db : DB) (cid : Nat) (today d : Int) (g : Group)
    (hg : getOpenGroup db cid = .ok g)
    (hw : ¬(today - weekday today ≤ d ∧ d ≤ today - weekday today + 5)) :
    (∀ records : List MarkRecord,
      markDay db cid today d records = .error .outOfWindow) ∧
    (∀ (sid : Nat) (nb : Int) (c : String), sid ≠ 0 →
      markStudent db cid today sid d nb c = .error .outOfWindow) := by
  constructor
  · intro records
    exact markDay_err_window db cid today d records g hg hw
  · intro sid nb c hsid
    exact markStudent_err_window db cid today sid d nb c g hg hsid hw

/-- Witness for Claim C6: day 10 lies outside the week of day 0, so both
single-day calls are rejected. -/
theorem C6_day_window_witness :
    markDay exDB 1 0 10 [] = .error .outOfWindow ∧
    markStudent exDB 1 0 1 10 3 "" = .error .outOfWindow :=
  ⟨(C6_day_window exDB 1 0 10 exGroup (by decide) (by decide)).1 [],
   (C6_day_window exDB 1 0 10 exGroup (by decide) (by decide)).2 1 3 ""
     (by decide)⟩

/-- Claim C7: the attendance upsert preserves at-most-one-fact per
(student, lesson) pair, writes exactly one fact for its own pair, and is
idempotent — the second identical application is a no-op on the whole
state; and no core operation removes a fact: every lesson's fact count
is non-decreasing across `markDay`, `markStudent`, `saveWeek`,
`createStudent` and `justifyAttendance`, and untouched by
`updateStudent`, `deleteStudent`, `closeGroup` and `reopenGroup`. -/
theorem C7_upsert_monotone :
    (∀ (db : DB) (lid sid : Nat) (nb : Int) (c : String) (uid s' l' : Nat),
      countPair db s' l' ≤ 1 →
      countPair (upsertAttendance db lid sid nb c uid) s' l' ≤ 1) ∧
    (∀ (db : DB) (lid sid : Nat) (nb : Int) (c : String) (uid : Nat),
      countPair db sid lid ≤ 1 →
      countPair (upsertAttendance db lid sid nb c uid) sid lid = 1) ∧
    (∀ (db : DB) (lid sid : Nat) (nb : Int) (c : String) (uid : Nat),
      upsertAttendance (upsertAttendance db lid sid nb c uid) lid sid nb c
        uid = upsertAttendance db lid sid nb c uid) ∧
    (∀ (db : DB) (cid : Nat) (today d : Int) (records : List MarkRecord)
        (db' : DB) (n : Nat),
      markDay db cid today d records = .ok (db', n) →
      ∀ lid, markedCount db lid ≤ markedCount db' lid) ∧
    (∀ (db : DB) (cid : Nat) (today : Int) (sid : Nat) (d nb : Int)
        (c : String) (db' : DB) (t : Int),
      markStudent db cid today sid d nb c = .ok (db', t) →
      ∀ lid, markedCount db lid ≤ markedCount db' lid) ∧
    (∀ (db : DB) (cid : Nat) (today ws : Int) (days : List DayRecords)
        (db' : DB) (n : Nat),
      saveWeek db cid today ws days = .ok (db', n) →
      ∀ lid, markedCount db lid ≤ markedCount db' lid) ∧
    (∀ (db : DB) (cid : Nat) (today : Int) (name : String) (init : Int)
        (db' : DB) (i : Nat),
      createStudent db cid today name init = .ok (db', i) →
      ∀ lid, markedCount db lid ≤ markedCount db' lid) ∧
    (∀ (db : DB) (uid fid aid : Nat) (flag : Bool) (text : String)
        (db' : DB), justifyAttendance db uid fid aid flag text = .ok db' →
      ∀ lid, markedCount db lid ≤ markedCount db' lid) ∧
    (∀ (db : DB) (cid sid : Nat) (db' : DB),
      updateStudent db cid sid = .ok db' ∨
        deleteStudent db cid sid = .ok db' →
      ∀ lid, markedCount db' lid = markedCount db lid) ∧
    (∀ (db : DB) (fid gid : Nat) (db' : DB),
      closeGroup db fid gid = .ok db' ∨ reopenGroup db fid gid = .ok db' →
      ∀ lid, markedCount db' lid = markedCount db lid) := by
  refine ⟨upsert_countPair_le, upsert_countPair_self, upsert_idem,
    ?_, ?_, ?_, ?_, ?_, ?_, ?_⟩
  · intro db cid today d records db' n h lid
    obtain ⟨g, hg, hw, hdb⟩ := markDay_ok_cases db cid today d records db' n h
    subst hdb
    exact markedCount_mono (markDayBody_keysExtend db g cid d records) lid
  · intro db cid today sid d nb c db' t h lid
    obtain ⟨g, hg, hnb, hdb⟩ :=
      markStudent_ok_cases db cid today sid d nb c db' t h
    subst hdb
    exact markedCount_mono
      (markStudentBody_keysExtend db g cid sid d nb c) lid
  · intro db cid today ws days db' n h lid
    obtain ⟨g, hg, hd, hdb⟩ := saveWeek_ok_cases db cid today ws days db' n h
    subst hdb
    exact markedCount_mono
      (saveWeekBody_keysExtend db g cid (ws - weekday ws) days) lid
  · intro db cid today name init db' i h lid
    obtain ⟨g, hg, hdb⟩ :=
      createStudent_ok_cases db cid today name init db' i h
    subst hdb
    exact markedCount_mono
      (createStudentBody_keysExtend db g cid today init) lid
  · intro db uid fid aid flag text db' h lid
    exact markedCount_mono
      (justify_keysExtend db uid fid aid flag text db' h) lid
  · intro db cid sid db' h lid
    rcases h with h | h
    · rw [updateStudent_ok_eq db cid sid db' h]
    · exact markedCount_congr (deleteStudent_ok_att db cid sid db' h).1 lid
  · intro db fid gid db' h lid
    rcases h with h | h
    · exact markedCount_congr (closeGroup_ok_att db fid gid db' h).1 lid
    · exact markedCount_congr (reopenGroup_ok_att db fid gid db' h).1 lid

/-- Witness for Claim C7: upserting into the empty concrete state yields
exactly one fact for the pair. -/
theorem C7_upsert_monotone_witness :
    countPair (upsertAttendance exDB 1 1 2 "x" 1) 1 1 = 1 :=
  C7_upsert_monotone.2.1 exDB 1 1 2 "x" 1 (by decide)

/-- Claim C8: lesson resolution preserves the at-most-one-lesson
invariant for every (group, date) pair, creates exactly one lesson when
none exists for the requested pair, returns the existing lesson with the
state untouched when one does, and a second resolution of the same pair
returns exactly the lesson the first one produced, creating nothing
further. -/
theorem C8_lesson_unique (db : DB) (gid : Nat) (d : Int) :
    (∀ (g' : Nat) (d' : Int), lessonCount db g' d' ≤ 1 →
      lessonCount (getOrCreateLesson db gid d).1 g' d' ≤ 1) ∧
    (lessonCount db gid d = 0 →
      lessonCount (getOrCreateLesson db gid d).1 gid d = 1) ∧
    (∀ l0, lessonFor db gid d = some l0 →
      getOrCreateLesson db gid d = (db, l0)) ∧
    getOrCreateLesson (getOrCreateLesson db gid d).1 gid d =
      ((getOrCreateLesson db gid d).1, (getOrCreateLesson db gid d).2) := by
  cases hf : db.lessons.find? (lessonKey gid d) with
  | some l =>
    rw [gocl_of_some db gid d l hf]
    refine ⟨fun g' d' h => h, ?_, ?_, ?_⟩
    · intro h0
      exfalso
      have hmem := List.mem_of_find?_eq_some hf
      have hp := List.find?_some hf
      unfold lessonCount at h0
      rw [List.length_eq_zero, List.filter_eq_nil_iff] at h0
      exact h0 l hmem hp
    · intro l0 hl0
      unfold lessonFor at hl0
      rw [hf] at hl0
      injection hl0 with he
      rw [he]
    · show getOrCreateLesson db gid d = (db, l)
      exact gocl_of_some db gid d l hf
  | none =>
    rw [gocl_of_none db gid d hf]
    have hnil : db.lessons.filter (lessonKey gid d) = [] := by
      rw [List.filter_eq_nil_iff]
      intro a ha hpa
      rw [List.find?_eq_none] at hf
      exact hf a ha hpa
    refine ⟨?_, ?_, ?_, ?_⟩
    · intro g' d' h
      unfold lessonCount at h ⊢
      dsimp only
      rw [List.filter_append, List.length_append]
      by_cases hkey : lessonKey g' d'
          { id := db.next_lesson_id, group_id := gid, lesson_date := d } = true
      · have hgd : g' = gid ∧ d' = d := by
          simp only [lessonKey, Bool.and_eq_true, beq_iff_eq] at hkey
          exact ⟨hkey.1.symm, hkey.2.symm⟩
        obtain ⟨rfl, rfl⟩ := hgd
        rw [hnil]
        simp only [List.length_nil, Nat.zero_add]
        exact List.length_filter_le _ _
      · have h1 : List.filter (lessonKey g' d')
            [{ id := db.next_lesson_id, group_id := gid,
               lesson_date := d }] = [] := by
          rw [List.filter_eq_nil_iff]
          intro a ha
          rw [List.mem_singleton] at ha
          subst ha
          exact hkey
        rw [h1]
        simpa using h
    · intro h0
      unfold lessonCount
      dsimp only
      rw [List.filter_append, hnil, List.nil_append,
        lesson_filter_singleton
          { id := db.next_lesson_id, group_id := gid, lesson_date := d }
          gid d (by simp [lessonKey])]
      rfl
    · intro l0 hl0
      unfold lessonFor at hl0
      rw [hf] at hl0
      exact absurd hl0 (by simp)
    · have hfind2 : List.find? (lessonKey gid d)
          (db.lessons ++
            [({ id := db.next_lesson_id, group_id := gid,
                lesson_date := d } : Lesson)]) =
          some { id := db.next_lesson_id, group_id := gid,
                 lesson_date := d } := by
        rw [find_append_none _ _ _ hf,
          lesson_find_singleton
            { id := db.next_lesson_id, group_id := gid, lesson_date := d }
            gid d (by simp [lessonKey])]
      exact gocl_of_some _ gid d _ hfind2

/-- Witness for Claim C8: resolving (group 1, day 0) in the lesson-free
concrete state creates exactly one lesson. -/
theorem C8_lesson_unique_witness :
    lessonCount (getOrCreateLesson exDB 1 0).1 1 0 = 1 :=
  (C8_lesson_unique exDB 1 0).2.1 (by decide)

/-- Claim C9: every successful `markDay` returns, next to the new state,
exactly the number of records that survive the two silent filters —
student belongs to the curator's group and is not deleted, hours within
[0,8] — and every surviving record has an attendance fact on the
resolved lesson in the new state; dropped records are not counted. -/
theorem C9_batch_filter (db : DB) (cid : Nat) (today d : Int)
    (records : List MarkRecord) (db' : DB) (n : Nat)
    (h : markDay db cid today d records = .ok (db', n)) :
    ∃ g, getOpenGroup db cid = .ok g ∧
      n = (records.filter (accepted (validSids db g.id))).length ∧
      ∀ r ∈ records, accepted (validSids db g.id) r = true →
        ∃ a ∈ db'.attendance, a.student_id = r.student_id ∧
          a.lesson_id = (getOrCreateLesson db g.id d).2.id := by
  cases hg : getOpenGroup db cid with
  | error e =>
    rw [markDay_err_gate db cid today d records e hg] at h
    exact absurd h (by simp)
  | ok g =>
    by_cases hw : (weekBounds today).1 ≤ d ∧ d ≤ (weekBounds today).2
    · rw [markDay_ok db cid today d records g hg hw] at h
      simp only [Except.ok.injEq] at h
      have hdb : db' = (markDayBody db g cid d records).1 := by rw [h]
      have hn : n = (markDayBody db g cid d records).2 := by rw [h]
      refine ⟨g, rfl, ?_, ?_⟩
      · rw [hn, markDayBody_count]
      · intro r hr hacc
        rw [hdb]
        exact markDayBody_hasFact db g cid d records r hr hacc
    · rw [markDay_err_window db cid today d records g hg hw] at h
      exact absurd h (by simp)

/-- Witness for Claim C9: of the three concrete records one survives
(the second names a foreign student, the third carries 99 hours), the
call returns 1 and the survivor has its fact. -/
theorem C9_batch_filter_witness :
    ∃ g, getOpenGroup exDB 1 = .ok g ∧
      1 = (exRecs.filter (accepted (validSids exDB g.id))).length ∧
      ∀ r ∈ exRecs, accepted (validSids exDB g.id) r = true →
        ∃ a ∈ exRecsMarked.attendance, a.student_id = r.student_id ∧
          a.lesson_id = (getOrCreateLesson exDB g.id 0).2.id :=
  C9_batch_filter exDB 1 0 0 exRecs exRecsMarked 1 (by decide)

/-- Claim C10: corrections and justification do not interfere — the
update branch of the upsert rewrites `nb_hours`, `status`, `comment` and
`marked_by` of its row while keeping every row's `is_reasoned`,
`reason_text` and `reasoned_by` (and the students table); and
`justifyAttendance` rewrites `is_reasoned`, `reason_text` and
`reasoned_by` of its row while keeping every row's curator-written
fields as well as the students table, hence every cached total. -/
theorem C10_frame :
    (∀ (db : DB) (lid sid : Nat) (nb : Int) (c : String) (uid : Nat),
      db.attendance.any (attKey sid lid) = true →
      (upsertAttendance db lid sid nb c uid).students = db.students ∧
      (upsertAttendance db lid sid nb c uid).attendance.map justifyFields =
        db.attendance.map justifyFields ∧
      ∃ a ∈ (upsertAttendance db lid sid nb c uid).attendance,
        a.student_id = sid ∧ a.lesson_id = lid ∧ a.nb_hours = nb ∧
        a.comment = c ∧ a.marked_by = uid ∧
        a.status = (if 0 < nb then "absent" else "present")) ∧
    (∀ (db : DB) (uid fid aid : Nat) (flag : Bool) (text : String)
        (db' : DB), justifyAttendance db uid fid aid flag text = .ok db' →
      db'.students = db.students ∧ db'.groups = db.groups ∧
      db'.attendance.map markFields = db.attendance.map markFields ∧
      ∃ a ∈ db'.attendance, a.id = aid ∧ a.is_reasoned = flag ∧
        a.reason_text = text ∧ a.reasoned_by = some uid) := by
  constructor
  · intro db lid sid nb c uid hany
    exact ⟨upsert_students db lid sid nb c uid,
      upsert_justify_frame db lid sid nb c uid hany,
      upsert_written db lid sid nb c uid hany⟩
  · intro db uid fid aid flag text db' h
    have h1 := justify_frame db uid fid aid flag text db' h
    have h2 := justify_written db uid fid aid flag text db' h
    exact ⟨h1.1, h1.2.1, h1.2.2, h2⟩

/-- Witness for Claim C10: re-upserting the concrete fact keeps its
justification fields, and the concrete justification keeps its
curator-written fields. -/
theorem C10_frame_witness :
    (upsertAttendance exMarked 1 1 0 "fixed" 1).attendance.map
      justifyFields = exMarked.attendance.map justifyFields ∧
    exJustified.attendance.map markFields =
      exMarked.attendance.map markFields :=
  ⟨(C10_frame.1 exMarked 1 1 0 "fixed" 1 (by decide)).2.1,
   (C10_frame.2 exMarked 9 1 1 true "ill" exJustified (by decide)).2.2.1⟩

end Mexmat
